import Mathlib

/-!
# Verification of the gphoto-backup sync and organize script

Shallow embedding of `src/gphoto-backup.py`: the SQLite ledger, the remote
catalog client with its retry policy, the sync orchestrator loop
(`sync_photos`), the idempotent download step (`download_photo`), and the
local organizer (`organize_photos`), together with theorems settling the
specification claims.

Modelling conventions:
* Filesystem paths are lists of components (`FPath`); `os.path.join` over
  slash-free component names is list append.  States in which a directory
  occupies one of the organizer's file paths, or a component name contains
  a path separator, are outside the model.
* The SQLite connection is a pair of database values: `committed` (what is
  durable on disk) and `pending` (what the open transaction sees).  All
  statements act on `pending`; `commit` publishes `pending`; closing the
  connection without committing discards `pending` (Python's sqlite3
  module operates in implicit-transaction mode and rolls back an open
  transaction on close).
* Opaque page tokens over an unchanged remote catalog are modelled as page
  indices: the token stored after fully processing page `i` is `i + 1`,
  the token by which page `i + 1` is fetched.
* Cooperative interruption (the SIGINT-driven `interrupted` flag) is a
  monotone flag read at the `while` condition and before each item; a
  schedule `checks : Option Nat` says how many reads return `false`
  before every later read returns `true` (`none`: never interrupted).
-/

/-- A filesystem path, as a list of slash-free components. -/
abbrev FPath := List String

/-- A filesystem node: a regular file with contents, or a symbolic link
with a target path (`os.symlink target linkpath`). -/
inductive FsNode where
  | file (content : String)
  | link (target : FPath)
deriving Repr, DecidableEq

/-- A filesystem: a set of existing directories and a finite map from
paths to nodes. -/
structure Fs where
  dirs : List FPath
  entries : List (FPath × FsNode)
deriving Repr, DecidableEq

/-- Look up the node at path `p` (no symlink dereference). -/
def Fs.get (fs : Fs) (p : FPath) : Option FsNode :=
  (fs.entries.find? (fun e => e.1 == p)).map (fun e => e.2)

/-- Create or overwrite the entry at path `p`. -/
def Fs.setE (fs : Fs) (p : FPath) (n : FsNode) : Fs :=
  { fs with entries := fs.entries.filter (fun e => !(e.1 == p)) ++ [(p, n)] }

/-- Remove the entry at path `p`. -/
def Fs.removeE (fs : Fs) (p : FPath) : Fs :=
  { fs with entries := fs.entries.filter (fun e => !(e.1 == p)) }

/-- `os.makedirs(p, exist_ok=True)`. -/
def Fs.mkdirs (fs : Fs) (p : FPath) : Fs :=
  if p ∈ fs.dirs then fs else { fs with dirs := fs.dirs ++ [p] }

/-- `os.path.exists p`: true for a regular file and for a symlink whose
target exists (`os.path.exists` dereferences symlinks; one dereference
level suffices here because every link the program handles targets a
regular file path). -/
def Fs.pathExists (fs : Fs) (p : FPath) : Bool :=
  match fs.get p with
  | some (.file _) => true
  | some (.link t) => (fs.get t).isSome
  | none => false

/-- `shutil.move old new` for a plain entry: the node at `old` is removed
and written at `new` (overwriting `new` when present). -/
def Fs.move (fs : Fs) (old new : FPath) : Fs :=
  match fs.get old with
  | some n => (fs.removeE old).setE new n
  | none => fs

/-- True when the filesystem contains no symlink entries. -/
def Fs.linkFree (fs : Fs) : Bool :=
  fs.entries.all (fun e => match e.2 with | .link _ => false | .file _ => true)



/-! ## Ledger (SQLite database) model

Tables from `init_database`: `downloaded_files` (primary key `file_id`),
`albums` (primary key `album_id`), `album_items` (primary key the pair),
and `sync_state` holding at most the `last_page_token` row, modelled as
`syncState : Option Nat` (tokens are page indices, see the header).
The metadata columns that no claim inspects (download date, dimensions,
camera fields, geo data) are bundled as one opaque `meta` string copied
verbatim from the item at insertion time. -/

/-- A media item as returned by the remote catalog: remote identifier,
filename, optional capture time (year, month — the components the
organizer derives its date bucket from), and the opaque remaining
metadata. -/
structure Item where
  id : String
  filename : String
  creationTime : Option (Nat × Nat)
  meta : String
deriving Repr, DecidableEq

/-- A row of `downloaded_files`. -/
structure DownloadRecord where
  fileId : String
  filename : String
  creationTime : Option (Nat × Nat)
  meta : String
deriving Repr, DecidableEq

/-- A row of `albums`. -/
structure Album where
  albumId : String
  title : String
  itemCount : Option Nat
  coverPhotoId : Option String
deriving Repr, DecidableEq

/-- The ledger database. -/
structure DB where
  downloadedFiles : List DownloadRecord
  albums : List Album
  albumItems : List (String × String)
  syncState : Option Nat
deriving Repr, DecidableEq

/-- `SELECT 1 FROM downloaded_files WHERE file_id = ?` (`is_file_downloaded`
and the dedup check at the top of `download_photo`). -/
def is_file_downloaded (db : DB) (fileId : String) : Bool :=
  db.downloadedFiles.any (fun r => r.fileId == fileId)

/-- The `downloaded_files` row built from an item by `add_downloaded_file`. -/
def recordOf (item : Item) : DownloadRecord :=
  { fileId := item.id, filename := item.filename,
    creationTime := item.creationTime, meta := item.meta }

/-- `INSERT OR REPLACE INTO downloaded_files ...` (`add_downloaded_file`):
an upsert keyed by `file_id`. -/
def add_downloaded_file (db : DB) (item : Item) : DB :=
  { db with downloadedFiles :=
      if db.downloadedFiles.any (fun r => r.fileId == item.id) then
        db.downloadedFiles.map fun r =>
          if r.fileId == item.id then recordOf item else r
      else
        db.downloadedFiles ++ [recordOf item] }

/-- `INSERT OR REPLACE INTO albums ...` (`add_album`): an upsert keyed by
`album_id`. -/
def add_album (db : DB) (a : Album) : DB :=
  { db with albums :=
      if db.albums.any (fun b => b.albumId == a.albumId) then
        db.albums.map (fun b => if b.albumId == a.albumId then a else b)
      else
        db.albums ++ [a] }

/-- `INSERT OR IGNORE INTO album_items ...` (`add_item_to_album`):
inserting an existing pair is a no-op. -/
def add_item_to_album (db : DB) (albumId fileId : String) : DB :=
  if db.albumItems.any (fun q => q.1 == albumId && q.2 == fileId) then db
  else { db with albumItems := db.albumItems ++ [(albumId, fileId)] }

/-- An open sqlite3 connection: the durable state and the state seen by
the open implicit transaction. -/
structure Conn where
  committed : DB
  pending : DB
deriving Repr, DecidableEq

/-- `conn.commit()`. -/
def Conn.commit (c : Conn) : Conn :=
  { committed := c.pending, pending := c.pending }

/-- `conn.close()` without a commit: the open transaction is rolled back
and the durable state is returned. -/
def Conn.closeDb (c : Conn) : DB :=
  c.committed

/-! ## Remote catalog client and retry policy

`make_api_request` and `download_file` are wrapped in
`tenacity.retry(stop=stop_after_attempt(3), wait=wait_exponential(multiplier=1, min=4, max=10),
retry=retry_if_exception_type(...), before_sleep=..., after=...)`.
`response.raise_for_status()` raises `requests.exceptions.HTTPError` for
every status of 400 and above — client (4xx) and server (5xx) alike — and
`HTTPError` is matched by the retry predicate of both wrappers (it is
listed for `make_api_request` and is a subclass of `RequestException`,
the predicate of `download_file`), so every raising outcome is retried.
After the third failed attempt tenacity (with its default
`reraise=False`) raises `tenacity.RetryError`. -/

/-- The outcome of a single request attempt. -/
inductive ReqOutcome where
  | success (body : String)
  | httpStatus (code : Nat)
  | netFailure
deriving Repr, DecidableEq

/-- Whether the attempt raises: `requests.get`or `session.request` raises
`RequestException` on a network failure, and `raise_for_status` raises
`HTTPError` exactly when the status code is 400 or above. -/
def outcomeRaises : ReqOutcome → Bool
  | .success _ => false
  | .httpStatus code => decide (400 ≤ code)
  | .netFailure => true

/-- The body returned when the attempt does not raise. -/
def outcomeBody : ReqOutcome → String
  | .success body => body
  | .httpStatus _ => ""
  | .netFailure => ""

/-- `wait_exponential(multiplier=1, min=4, max=10)`: the sleep before the
retry that follows failed attempt number `n`. -/
def backoffWait (n : Nat) : Nat :=
  max 4 (min (2 ^ (n - 1)) 10)

/-- The observable trace of one retry-wrapped call: the result (`none`
means `RetryError` after exhaustion), the number of attempts made, the
backoff sleeps performed, the attempt numbers before whose sleep the
`before_sleep` hook ran, and the attempt numbers after which the `after`
hook ran. -/
structure RetryTrace where
  result : Option String
  attempts : Nat
  sleeps : List Nat
  hookBeforeSleep : List Nat
  hookAfter : List Nat
deriving Repr, DecidableEq

/-- The retry-wrapped `make_api_request` (identical policy on
`download_file`), with `stop_after_attempt(3)` unrolled: `outcome n` is
what attempt `n` would do. -/
def make_api_request (outcome : Nat → ReqOutcome) : RetryTrace :=
  if outcomeRaises (outcome 1) then
    if outcomeRaises (outcome 2) then
      if outcomeRaises (outcome 3) then
        { result := none, attempts := 3,
          sleeps := [backoffWait 1, backoffWait 2],
          hookBeforeSleep := [1, 2], hookAfter := [1, 2, 3] }
      else
        { result := some (outcomeBody (outcome 3)), attempts := 3,
          sleeps := [backoffWait 1, backoffWait 2],
          hookBeforeSleep := [1, 2], hookAfter := [1, 2] }
    else
      { result := some (outcomeBody (outcome 2)), attempts := 2,
        sleeps := [backoffWait 1], hookBeforeSleep := [1], hookAfter := [1] }
  else
    { result := some (outcomeBody (outcome 1)), attempts := 1,
      sleeps := [], hookBeforeSleep := [], hookAfter := [] }

/-! ## Sync orchestrator (`sync_photos`)

The remote catalog is unchanged across the runs the claims quantify over,
so it is a fixed value: the album list, the member items of each album
(`mediaItems:search` with `albumId`), the pages of the date-range scan
(`mediaItems:search` with the date filter) in the order the API returns
them, and the content bytes served for each item id
(`download_file(item.baseUrl + "=d")`).

`failPage idx` says that the fetch of page `idx` exhausts its retries in
this run.  `make_api_request` then raises `tenacity.RetryError`, which
the loop's `except requests.exceptions.RequestException` handler does not
match, so it propagates to the run-level `except Exception` handler and
the run ends; the connection is closed and the open transaction rolled
back.  (Even if the inner handler did match, its `time.sleep(60)` would
raise `AttributeError` — the script's `from datetime import ... time`
shadows the `time` module — with the same run-ending effect.) -/

/-- The unchanged remote catalog. -/
structure Remote where
  albums : List Album
  albumItemsOf : String → List String
  pages : List (List Item)
  content : String → String

/-- One step of building `media_item_to_albums`: append `albumId` to the
list of albums of `itemId` (a Python dict of lists). -/
def indexAdd (idx : List (String × List String)) (itemId albumId : String) :
    List (String × List String) :=
  if idx.any (fun e => e.1 == itemId) then
    idx.map fun e =>
      if e.1 == itemId then (e.1, e.2 ++ [albumId]) else e
  else
    idx ++ [(itemId, [albumId])]

/-- `media_item_to_albums.get(itemId, [])`. -/
def lookupIndex (idx : List (String × List String)) (itemId : String) :
    List String :=
  match idx.find? (fun e => e.1 == itemId) with
  | some e => e.2
  | none => []

/-- `fetch_albums_with_media_items`: all albums, plus the mapping from
item id to the album ids containing it, built album by album, page by
page. -/
def fetch_albums_with_media_items (remote : Remote) :
    List Album × List (String × List String) :=
  (remote.albums,
    remote.albums.foldl
      (fun idx a =>
        (remote.albumItemsOf a.albumId).foldl
          (fun idx itemId => indexAdd idx itemId a.albumId) idx)
      [])

/-- The mutable state threaded through a sync run: the open connection,
the filesystem, the log of item ids whose content was fetched and written
(in order), and the interruption schedule. -/
structure SyncSt where
  conn : Conn
  fs : Fs
  fetched : List String
  checks : Option Nat
deriving Repr

/-- One read of the `interrupted` flag under the schedule. -/
def checkInterrupted (st : SyncSt) : Bool × SyncSt :=
  match st.checks with
  | none => (false, st)
  | some 0 => (true, st)
  | some (n + 1) => (false, { st with checks := some n })

/-- `download_photo`, with the fallible steps explicit: `fetchRes` is the
result of `download_file` (`none`: the download raised after retries) and
`writeOk` whether the file write succeeds.  Returns the new state and
whether an exception escapes `download_photo` (a fetch failure is caught
by the caller's per-item handler — under tenacity semantics the
`RetryError` escapes `download_photo`'s own `except RequestException` —
and so is a write failure; either way the caller logs and continues).
No `downloaded_files` row is inserted unless the fetch succeeded and the
write completed. -/
def download_photo_attempt (root : FPath) (item : Item)
    (fetchRes : Option String) (writeOk : Bool) (st : SyncSt) :
    SyncSt × Bool :=
  if is_file_downloaded st.conn.pending item.id then
    (st, false)
  else
    match fetchRes with
    | none => (st, true)
    | some content =>
      let st1 := { st with fetched := st.fetched ++ [item.id] }
      if writeOk then
        let st2 := { st1 with
          fs := st1.fs.setE (root ++ [item.filename]) (.file content) }
        ({ st2 with conn := { st2.conn with
            pending := add_downloaded_file st2.conn.pending item } }, false)
      else
        ({ st1 with
            fs := st1.fs.setE (root ++ [item.filename]) (.file "") }, true)

/-- `download_photo` on the run's success path (content served by the
unchanged remote, write succeeds). -/
def download_photo (root : FPath) (content : String → String) (item : Item)
    (st : SyncSt) : SyncSt :=
  (download_photo_attempt root item (some (content item.id)) true st).1

/-- The `for item in items` loop of `sync_photos`: check the flag, break
when interrupted, otherwise download and upsert the item's album
memberships from the index. -/
def processPageItems (root : FPath) (content : String → String)
    (index : List (String × List String)) :
    List Item → SyncSt → SyncSt
  | [], st => st
  | item :: rest, st =>
    match checkInterrupted st with
    | (true, st1) => st1
    | (false, st1) =>
      let st2 := download_photo root content item st1
      let pend := (lookupIndex index item.id).foldl
        (fun db aid => add_item_to_album db aid item.id) st2.conn.pending
      processPageItems root content index rest
        { st2 with conn := { st2.conn with pending := pend } }

/-- The `while not interrupted` page loop of `sync_photos`, started at
page index `idx` with `rest` the pages from `idx` on.  After a page's
items, when a next page exists its token is upserted into `sync_state`
and the transaction committed before the next fetch; when the page is the
last, the `sync_state` row is deleted in the pending transaction and the
loop breaks — skipping the `conn.commit()` that follows the if/else in
the source. -/
def syncPages (root : FPath) (content : String → String)
    (index : List (String × List String)) (failPage : Nat → Bool) :
    Nat → List (List Item) → SyncSt → SyncSt
  | _idx, [], st =>
    match checkInterrupted st with
    | (true, st1) => st1
    | (false, st1) =>
      if failPage _idx then st1
      else
        { st1 with conn := { st1.conn with
            pending := { st1.conn.pending with syncState := none } } }
  | idx, items :: tail, st =>
    match checkInterrupted st with
    | (true, st1) => st1
    | (false, st1) =>
      if failPage idx then st1
      else
        let st2 := processPageItems root content index items st1
        match tail with
        | [] =>
          { st2 with conn := { st2.conn with
              pending := { st2.conn.pending with syncState := none } } }
        | _ :: _ =>
          let st3 := { st2 with conn := Conn.commit { st2.conn with
              pending := { st2.conn.pending with syncState := some (idx + 1) } } }
          syncPages root content index failPage (idx + 1) tail st3

/-- The observable result of one `sync_photos` run: the durable database
after the connection is closed, the filesystem, and the fetch log. -/
structure RunResult where
  db : DB
  fs : Fs
  fetched : List String
deriving Repr

/-- `sync_photos(download_dir, start_date, end_date, db_file)` against the
unchanged remote: open the connection, fetch and commit the album index,
read `last_page_token` to pick the resume point, run the page loop, and
close the connection (rolling back whatever the loop left uncommitted). -/
def sync_photos (root : FPath) (remote : Remote) (dbInit : DB) (fs0 : Fs)
    (checks : Option Nat) (failPage : Nat → Bool) : RunResult :=
  let conn0 : Conn := { committed := dbInit, pending := dbInit }
  let fetched := fetch_albums_with_media_items remote
  let conn1 := Conn.commit { conn0 with
    pending := fetched.1.foldl add_album conn0.pending }
  let startIdx := (conn1.pending.syncState).getD 0
  let st0 : SyncSt := { conn := conn1, fs := fs0, fetched := [], checks := checks }
  let stF := syncPages root remote.content fetched.2 failPage startIdx
    (remote.pages.drop startIdx) st0
  { db := stF.conn.closeDb, fs := stF.fs, fetched := stF.fetched }

/-- A run with no page-fetch failures. -/
def noFail : Nat → Bool := fun _ => false

/-! ## Local organizer (`organize_photos`)

The organizer reads, per `downloaded_files` row, the filename, the
(parsed) capture time, and `GROUP_CONCAT(a.title, '|')` over the album
memberships, then moves the file into its date bucket and creates album
symlinks.  `str.split` on the one-character separator is modelled by a
structural recursion over the character list (Lean's built-in
`String.splitOn` is not kernel-reducible); it agrees with Python's
`split("|")`.  Rows are processed in `file_id` order (SQLite's
`GROUP BY df.file_id` output order); concrete scenarios below choose ids
so that this is the list order of `downloadedFiles`. -/

/-- A row of the organizer's query. -/
structure OrgRow where
  filename : String
  creationTime : Option (Nat × Nat)
  titles : List String
deriving Repr, DecidableEq

/-- The (non-NULL) album titles joined to one `downloaded_files` row:
membership pairs for the file, resolved through `albums`; a pair whose
album is missing contributes SQL NULL, which `GROUP_CONCAT` skips. -/
def titlesFor (db : DB) (fileId : String) : List String :=
  (db.albumItems.filter (fun q => q.2 == fileId)).filterMap
    (fun q => (db.albums.find? (fun a => a.albumId == q.1)).map (fun a => a.title))

/-- The organizer's row for one record. -/
def rowForRec (db : DB) (r : DownloadRecord) : OrgRow :=
  { filename := r.filename, creationTime := r.creationTime,
    titles := titlesFor db r.fileId }

/-- The organizer's result set. -/
def rowsOf (db : DB) : List OrgRow :=
  db.downloadedFiles.map (rowForRec db)

/-- `GROUP_CONCAT(..., '|')` over the listed titles (with at least one
title; the empty case is NULL, see `albumsField`). -/
def concatTitles : List String → String
  | [] => ""
  | [t] => t
  | t :: rest => t ++ "|" ++ concatTitles rest

/-- The `albums` column of the organizer's query: NULL when the record
has no album memberships. -/
def albumsField (titles : List String) : Option String :=
  match titles with
  | [] => none
  | ts => some (concatTitles ts)

/-- Python's `str.split(sep)` for a one-character separator, over the
character list. -/
def splitOnChar (sep : Char) : List Char → List (List Char)
  | [] => [[]]
  | c :: rest =>
    match splitOnChar sep rest with
    | [] => [[c]]
    | h :: t => if c = sep then [] :: h :: t else (c :: h) :: t

/-- Python's `s.split("|")`. -/
def pySplit (sep : Char) (s : String) : List String :=
  (splitOnChar sep s.data).map (fun cs => String.mk cs)

/-- The album titles the organizer loops over: `albums.split("|")` when
the `albums` column is truthy (not NULL, not the empty string), nothing
otherwise (`if albums:`). -/
def splitAlbums (albums : Option String) : List String :=
  match albums with
  | none => []
  | some s => if s == "" then [] else pySplit '|' s

/-- Python `"%02d" % n` for a natural number. -/
def pad2 (n : Nat) : String :=
  if n < 10 then "0" ++ toString n else toString n

/-- Python `"%04d" % n` for a natural number. -/
def pad4 (n : Nat) : String :=
  if n < 10 then "000" ++ toString n
  else if n < 100 then "00" ++ toString n
  else if n < 1000 then "0" ++ toString n
  else toString n

/-- The date bucket: `"%04d-%02d" % (year, month)` from the capture
time, or `Unknown_Date` when it is absent. -/
def dateFolderOf (creationTime : Option (Nat × Nat)) : String :=
  match creationTime with
  | some (y, m) => pad4 y ++ "-" ++ pad2 m
  | none => "Unknown_Date"

/-- The album loop of `organize_photos` for one record: ensure
`Albums/<title>/` exists and create the symlink named after the file,
pointing at the date-bucket location, unless `os.path.exists` already
reports it; `os.symlink` raises `FileExistsError` when an entry (even a
dangling symlink, which `os.path.exists` reports as absent) occupies the
link path — nothing catches it, so the pass aborts (`true` in the second
component).  `linkStep` is one iteration (`os.makedirs` on the album
directory, the `os.path.exists` check, `os.symlink`); `linkLoop` runs it
over the split titles. -/
def linkStep (root : FPath) (filename : String) (newPath : FPath)
    (t : String) (fs : Fs) : Fs × Bool :=
  let albumPath := root ++ ["Albums", t]
  let fs1 := fs.mkdirs albumPath
  let linkPath := albumPath ++ [filename]
  if fs1.pathExists linkPath then (fs1, false)
  else if (fs1.get linkPath).isSome then (fs1, true)
  else (fs1.setE linkPath (.link newPath), false)

/-- The album loop over the split titles; a raised `FileExistsError`
ends the loop (and, upstream, the pass). -/
def linkLoop (root : FPath) (filename : String) (newPath : FPath) :
    List String → Fs → Fs × Bool
  | [], fs => (fs, false)
  | t :: rest, fs =>
    match linkStep root filename newPath t fs with
    | (fs1, false) => linkLoop root filename newPath rest fs1
    | (fs1, true) => (fs1, true)

/-- The body of the organizer's row loop: derive the date bucket, ensure
it exists, move the file there when it still sits at the flat location,
log-and-skip the record when it is absent from both locations
(`continue`), then handle the album links. -/
def organizeRecord (root : FPath) (fs : Fs) (row : OrgRow) : Fs × Bool :=
  let datePath := root ++ [dateFolderOf row.creationTime]
  let fs1 := fs.mkdirs datePath
  let oldPath := root ++ [row.filename]
  let newPath := datePath ++ [row.filename]
  if fs1.pathExists oldPath then
    linkLoop root row.filename newPath (splitAlbums (albumsField row.titles))
      (fs1.move oldPath newPath)
  else if !(fs1.pathExists newPath) then
    (fs1, false)
  else
    linkLoop root row.filename newPath (splitAlbums (albumsField row.titles)) fs1

/-- The organizer's row loop; an uncaught exception from one record ends
the pass (there is no per-record handler in `organize_photos`). -/
def organizeRows (root : FPath) : List OrgRow → Fs → Fs × Bool
  | [], fs => (fs, false)
  | row :: rest, fs =>
    match organizeRecord root fs row with
    | (fs1, false) => organizeRows root rest fs1
    | (fs1, true) => (fs1, true)

/-- `organize_photos(download_dir, db_file)`. -/
def organize_photos (root : FPath) (db : DB) (fs : Fs) : Fs × Bool :=
  organizeRows root (rowsOf db) fs

/-! Path abbreviations for the organizer lemmas. -/

/-- The flat download location of a row's file. -/
def rowOld (root : FPath) (row : OrgRow) : FPath :=
  root ++ [row.filename]

/-- The date-bucket directory of a row. -/
def rowDatePath (root : FPath) (row : OrgRow) : FPath :=
  root ++ [dateFolderOf row.creationTime]

/-- The date-bucket location of a row's file. -/
def rowNew (root : FPath) (row : OrgRow) : FPath :=
  (root ++ [dateFolderOf row.creationTime]) ++ [row.filename]

/-- The album-directory path for a title. -/
def albumDir (root : FPath) (t : String) : FPath :=
  root ++ ["Albums", t]

/-- The link path for a title and filename. -/
def linkPathOf (root : FPath) (t : String) (filename : String) : FPath :=
  (root ++ ["Albums", t]) ++ [filename]

/-- The album titles the organizer actually loops over for a row. -/
def rowAlbumTitles (row : OrgRow) : List String :=
  splitAlbums (albumsField row.titles)

/-! ## Concrete scenarios

Fixed inputs used by the evaluations, counterexamples and witnesses. -/

/-- The empty ledger of a fresh `photo_sync.db`. -/
def dbEmpty : DB :=
  { downloadedFiles := [], albums := [], albumItems := [], syncState := none }

/-- An empty backup directory. -/
def fsEmpty : Fs := { dirs := [], entries := [] }

/-- The backup directory root. -/
def root0 : FPath := ["r"]

/-- Items of the concrete remote catalogs. -/
def itemX : Item := { id := "x", filename := "x.jpg", creationTime := none, meta := "" }

/-- Second item of page one in the two-page catalog. -/
def itemX2 : Item := { id := "x2", filename := "x2.jpg", creationTime := none, meta := "" }

/-- The single item of page two in the two-page catalog. -/
def itemY : Item := { id := "y", filename := "y.jpg", creationTime := none, meta := "" }

/-- A remote catalog with one page holding one item, which belongs to two
albums. -/
def remoteOnePage : Remote :=
  { albums :=
      [{ albumId := "A", title := "T", itemCount := none, coverPhotoId := none },
       { albumId := "B", title := "U", itemCount := none, coverPhotoId := none }],
    albumItemsOf := fun aid => if aid == "A" then ["x"] else if aid == "B" then ["x"] else [],
    pages := [[itemX]],
    content := fun _ => "bytes" }

/-- A remote catalog with two pages: page zero holds two items, page one
holds one; no albums. -/
def remoteTwoPages : Remote :=
  { albums := [],
    albumItemsOf := fun _ => [],
    pages := [[itemX, itemX2], [itemY]],
    content := fun _ => "bytes" }

/-- First complete run over the one-page catalog from the empty state. -/
def onePageRun1 : RunResult :=
  sync_photos root0 remoteOnePage dbEmpty fsEmpty none noFail

/-- Second complete run over the one-page catalog, from the state the
first run left behind. -/
def onePageRun2 : RunResult :=
  sync_photos root0 remoteOnePage onePageRun1.db onePageRun1.fs none noFail

/-- A run over the two-page catalog interrupted after item one of page
zero: the flag reads false at the `while` check and at item `x`'s check,
and true from item `x2`'s check on (SIGINT arriving while item one is
downloading). -/
def twoPageInterrupted : RunResult :=
  sync_photos root0 remoteTwoPages dbEmpty fsEmpty (some 2) noFail

/-- The uninterrupted resumption run after `twoPageInterrupted`. -/
def twoPageResumed : RunResult :=
  sync_photos root0 remoteTwoPages twoPageInterrupted.db twoPageInterrupted.fs none noFail

/-- A complete uninterrupted run over the two-page catalog. -/
def twoPageFull : RunResult :=
  sync_photos root0 remoteTwoPages dbEmpty fsEmpty none noFail

/-- A run over the two-page catalog in which the fetch of page one
exhausts its retries. -/
def twoPageFailAtOne : RunResult :=
  sync_photos root0 remoteTwoPages dbEmpty fsEmpty none (fun j => j == 1)

/-- Ledger used by the organizer counterexamples: records `a` and `b`
(processed in this `file_id` order), record `a` in album `T`. -/
def dbOrg : DB :=
  { downloadedFiles :=
      [{ fileId := "a", filename := "a.jpg", creationTime := none, meta := "" },
       { fileId := "b", filename := "b.jpg", creationTime := none, meta := "" }],
    albums := [{ albumId := "A", title := "T", itemCount := none, coverPhotoId := none }],
    albumItems := [("A", "a")],
    syncState := none }

/-- Filesystem for the organizer abort counterexample: both flat files
present, and a stale dangling symlink occupying record `a`'s album link
path (its target is gone, so `os.path.exists` reports the path absent,
and `os.symlink` then raises `FileExistsError`). -/
def fsStaleLink : Fs :=
  { dirs := [],
    entries := [(["r", "a.jpg"], .file "ca"), (["r", "b.jpg"], .file "cb"),
                (["r", "Albums", "T", "a.jpg"], .link ["r", "gone"])] }

/-- Filesystem for the organizer idempotence counterexample: record `a`
already sits in its date bucket and its album link exists but points at
record `b`'s flat file — a path the first pass moves away. -/
def fsLinkIntoFlat : Fs :=
  { dirs := [],
    entries := [(["r", "Unknown_Date", "a.jpg"], .file "ca"),
                (["r", "Albums", "T", "a.jpg"], .link ["r", "b.jpg"]),
                (["r", "b.jpg"], .file "cb")] }

/-- The first organizer pass over `fsLinkIntoFlat` (it succeeds). -/
def orgFirstPass : Fs × Bool := organize_photos root0 dbOrg fsLinkIntoFlat

/-- A row whose backing file exists nowhere (dangling record). -/
def rowDangling : OrgRow :=
  { filename := "a.jpg", creationTime := none, titles := [] }

/-- A freshly synced flat filesystem holding both of `dbOrg`'s files. -/
def fsFlat2 : Fs :=
  { dirs := [],
    entries := [(["r", "a.jpg"], .file "ca"), (["r", "b.jpg"], .file "cb")] }

/-- A sync state over the empty ledger, used by witnesses. -/
def stEmpty : SyncSt :=
  { conn := { committed := dbEmpty, pending := dbEmpty },
    fs := fsEmpty, fetched := [], checks := none }

/-- Every symlink in the filesystem targets a date-bucket-depth path
whose entry exists (no dangling links, no links into the flat download
level or the link level).  This is the link discipline the organizer
itself maintains when started from a link-free state. -/
def GoodLinks (root : FPath) (fs : Fs) : Prop :=
  ∀ q tgt, fs.get q = some (.link tgt) →
    tgt.length = root.length + 2 ∧ fs.get tgt ≠ none

/-- A record the organizer has nothing left to do for: its flat entry is
gone, its date-bucket directory exists, and — when its date-bucket file
is present — every album directory exists and every link path passes
the `os.path.exists` check. -/
def Settled (root : FPath) (fs : Fs) (row : OrgRow) : Prop :=
  fs.get (rowOld root row) = none ∧
  rowDatePath root row ∈ fs.dirs ∧
  (fs.pathExists (rowNew root row) = true →
    ∀ t ∈ rowAlbumTitles row, albumDir root t ∈ fs.dirs ∧
      fs.pathExists (linkPathOf root t row.filename) = true)

/-! ## Lemmas and claim theorems -/

section FsLemmas

theorem find?_filter_out_key {α : Type} (l : List (FPath × α)) (p : FPath) :
    (l.filter (fun e => !(e.1 == p))).find? (fun e => e.1 == p) = none := by
  induction l with
  | nil => rfl
  | cons e rest ih =>
    by_cases h : (e.1 == p) = true
    · simp only [List.filter_cons]
      rw [h]
      simp only [Bool.not_true]
      rw [if_neg (by simp)]
      exact ih
    · rw [Bool.not_eq_true] at h
      simp only [List.filter_cons]
      rw [h]
      simp only [Bool.not_false, if_true, List.find?_cons, h]
      exact ih

theorem find?_filter_out_other {α : Type} (l : List (FPath × α)) (p q : FPath)
    (hne : q ≠ p) :
    (l.filter (fun e => !(e.1 == p))).find? (fun e => e.1 == q)
      = l.find? (fun e => e.1 == q) := by
  induction l with
  | nil => rfl
  | cons e rest ih =>
    by_cases hq : (e.1 == q) = true
    · have hq' : e.1 = q := eq_of_beq hq
      have hp : (e.1 == p) = false := by
        apply beq_eq_false_iff_ne.mpr
        rw [hq']
        exact hne
      simp only [List.filter_cons]
      rw [hp]
      simp only [Bool.not_false, if_true, List.find?_cons, hq]
    · rw [Bool.not_eq_true] at hq
      by_cases hp : (e.1 == p) = true
      · simp only [List.filter_cons]
        rw [hp]
        simp only [Bool.not_true]
        rw [if_neg (by simp)]
        rw [ih]
        simp [List.find?_cons, hq]
      · rw [Bool.not_eq_true] at hp
        simp only [List.filter_cons]
        rw [hp]
        simp only [Bool.not_false, if_true, List.find?_cons, hq, ih]

theorem Fs.get_setE_self (fs : Fs) (p : FPath) (n : FsNode) :
    (fs.setE p n).get p = some n := by
  simp only [Fs.get, Fs.setE, List.find?_append, find?_filter_out_key]
  simp [List.find?]

theorem Fs.get_setE_ne (fs : Fs) (p q : FPath) (n : FsNode) (h : q ≠ p) :
    (fs.setE p n).get q = fs.get q := by
  simp only [Fs.get, Fs.setE, List.find?_append, find?_filter_out_other _ _ _ h]
  cases hf : fs.entries.find? (fun e => e.1 == q) with
  | some e => simp
  | none =>
    have hne : ((p, n).1 == q) = false := by
      apply beq_eq_false_iff_ne.mpr
      intro hc; exact h hc.symm
    simp [List.find?, hne]

theorem Fs.get_removeE_self (fs : Fs) (p : FPath) :
    (fs.removeE p).get p = none := by
  simp [Fs.get, Fs.removeE, find?_filter_out_key]

theorem Fs.get_removeE_ne (fs : Fs) (p q : FPath) (h : q ≠ p) :
    (fs.removeE p).get q = fs.get q := by
  simp [Fs.get, Fs.removeE, find?_filter_out_other _ _ _ h]

theorem Fs.get_mkdirs (fs : Fs) (p q : FPath) :
    (fs.mkdirs p).get q = fs.get q := by
  unfold Fs.mkdirs
  split <;> rfl

theorem Fs.pathExists_mkdirs (fs : Fs) (p q : FPath) :
    (fs.mkdirs p).pathExists q = fs.pathExists q := by
  simp [Fs.pathExists, Fs.get_mkdirs]

theorem Fs.dirs_mkdirs_mem (fs : Fs) (p : FPath) :
    p ∈ (fs.mkdirs p).dirs := by
  unfold Fs.mkdirs
  split
  · next h => exact h
  · simp

theorem Fs.dirs_mkdirs_mono (fs : Fs) (p q : FPath) (h : q ∈ fs.dirs) :
    q ∈ (fs.mkdirs p).dirs := by
  unfold Fs.mkdirs
  split
  · exact h
  · simp [h]

theorem Fs.entries_mkdirs (fs : Fs) (p : FPath) :
    (fs.mkdirs p).entries = fs.entries := by
  unfold Fs.mkdirs
  split <;> rfl

theorem Fs.mkdirs_mem_eq (fs : Fs) (p : FPath) (h : p ∈ fs.dirs) :
    fs.mkdirs p = fs := by
  unfold Fs.mkdirs
  rw [if_pos h]

end FsLemmas

/-! ### Retry classification (C4) -/

/-- C4 counterexample: a request answered with HTTP 404 on every attempt
is not surfaced immediately — `raise_for_status` raises `HTTPError`,
which both retry predicates match, so three attempts are made with two
backoff sleeps before the failure is surfaced. -/
theorem make_api_request_4xx_retried_cex :
    make_api_request (fun _ => ReqOutcome.httpStatus 404) =
      { result := none, attempts := 3, sleeps := [4, 4],
        hookBeforeSleep := [1, 2], hookAfter := [1, 2, 3] } ∧
    (make_api_request (fun _ => ReqOutcome.httpStatus 404)).attempts ≠ 1 := by
  constructor
  · decide
  · decide

/-- C4 amended: every raising outcome — network failure, 5xx response,
and 4xx response alike — is retried up to 3 attempts total with the
exponential backoff (minimum 4, cap 10) and the observability hooks
before each sleep and after each failed attempt; when every attempt
raises, the failure is surfaced (as `RetryError`) only after the third
attempt.  No outcome is surfaced without retry. -/
theorem make_api_request_retries_all_failures (outcome : Nat → ReqOutcome)
    (h : ∀ n, outcomeRaises (outcome n) = true) :
    make_api_request outcome =
      { result := none, attempts := 3,
        sleeps := [backoffWait 1, backoffWait 2],
        hookBeforeSleep := [1, 2], hookAfter := [1, 2, 3] } ∧
    backoffWait 1 = 4 ∧ backoffWait 2 = 4 := by
  refine ⟨?_, by decide, by decide⟩
  unfold make_api_request
  rw [h 1, h 2, h 3]
  simp

/-- Witness for `make_api_request_retries_all_failures` at a concrete
always-failing outcome (the hypothesis is discharged by `rfl` at every
attempt). -/
theorem make_api_request_retries_all_failures_witness :
    make_api_request (fun _ => ReqOutcome.netFailure) =
      { result := none, attempts := 3,
        sleeps := [backoffWait 1, backoffWait 2],
        hookBeforeSleep := [1, 2], hookAfter := [1, 2, 3] } :=
  (make_api_request_retries_all_failures (fun _ => ReqOutcome.netFailure)
    (fun _ => rfl)).1

/-! ### Download atomicity (C10) -/

/-- C10: for an item with no existing `downloaded_files` row, a failed
fetch or a failed file write leaves the `downloaded_files` table
untouched, and on the success path the row is inserted together with the
fully written file — the ledger never records a download whose write did
not complete. -/
theorem download_record_only_after_write (root : FPath) (item : Item)
    (fetchRes : Option String) (writeOk : Bool) (st : SyncSt)
    (h : is_file_downloaded st.conn.pending item.id = false) :
    ((fetchRes = none ∨ writeOk = false) →
      (download_photo_attempt root item fetchRes writeOk st).1.conn.pending.downloadedFiles
        = st.conn.pending.downloadedFiles) ∧
    (∀ c, fetchRes = some c → writeOk = true →
      (download_photo_attempt root item fetchRes writeOk st).1.conn.pending
          = add_downloaded_file st.conn.pending item ∧
      (download_photo_attempt root item fetchRes writeOk st).1.fs.get
          (root ++ [item.filename]) = some (.file c)) := by
  cases fetchRes with
  | none =>
    cases writeOk <;> simp [download_photo_attempt, h]
  | some c =>
    cases writeOk <;> simp [download_photo_attempt, h, Fs.get_setE_self]

/-- Witness for `download_record_only_after_write` on the success path at
a concrete item and state. -/
theorem download_record_only_after_write_witness :
    is_file_downloaded stEmpty.conn.pending itemX.id = false ∧
    (download_photo_attempt root0 itemX (some "c") true stEmpty).1.conn.pending
      = add_downloaded_file stEmpty.conn.pending itemX ∧
    (download_photo_attempt root0 itemX (some "c") true stEmpty).1.fs.get
      (root0 ++ [itemX.filename]) = some (.file "c") :=
  ⟨by decide,
    ((download_record_only_after_write root0 itemX (some "c") true stEmpty
      (by decide)).2 "c" rfl rfl).1,
    ((download_record_only_after_write root0 itemX (some "c") true stEmpty
      (by decide)).2 "c" rfl rfl).2⟩

/-! ### Sync ledger durability (C1, C2, C3, C9) -/

/-- C1 failing run: over a one-page catalog, the first complete run
fetches and writes item `x` but its `downloaded_files` row is rolled
back when the connection closes (the no-more-pages branch breaks out of
the loop before `conn.commit()`), so a second complete run over the same
range fetches and writes `x` again — the content is fetched twice in
total, violating at-most-once. -/
theorem sync_at_most_once_violated :
    onePageRun1.fetched = ["x"] ∧
    onePageRun1.db.downloadedFiles = [] ∧
    is_file_downloaded onePageRun1.db "x" = false ∧
    onePageRun2.fetched = ["x"] := by
  decide

/-- C2 failing run: interrupted after item one of page zero (of two
items), the run still executes the cursor-update block, committing the
token of page one — the page after the partially processed one — so the
resumed run starts at page one and item `x2` is never fetched by it; the
cursor also stays at page one's token afterwards, so no later resumed
run reaches `x2` either. -/
theorem sync_midpage_cursor_advanced :
    twoPageInterrupted.db.syncState = some 1 ∧
    twoPageInterrupted.fetched = ["x"] ∧
    is_file_downloaded twoPageInterrupted.db "x2" = false ∧
    twoPageResumed.fetched = ["y"] ∧
    is_file_downloaded twoPageResumed.db "x2" = false ∧
    twoPageResumed.db.syncState = some 1 := by
  decide

/-- C3 failing run: a complete uninterrupted scan of the two-page catalog
executes the `DELETE FROM sync_state` for the cursor but then breaks out
of the loop before `conn.commit()`, so closing the connection rolls the
deletion back (together with the final page's download records): the
durable cursor still holds page one's token and a subsequent run resumes
at the final page instead of starting from the beginning. -/
theorem sync_cursor_not_cleared_on_completion :
    twoPageFull.db.syncState = some 1 ∧
    twoPageFull.fetched = ["x", "x2", "y"] ∧
    is_file_downloaded twoPageFull.db "y" = false := by
  decide

/-- C9 failing run: the album index is built and the album rows are
committed before media processing — but over a one-page catalog the
`album_items` rows inserted while processing the (final) page are rolled
back at close, so after one full uninterrupted run neither membership
pair of the two-album item is in the ledger. -/
theorem sync_album_memberships_not_durable :
    (fetch_albums_with_media_items remoteOnePage).2 = [("x", ["A", "B"])] ∧
    onePageRun1.db.albums = remoteOnePage.albums ∧
    onePageRun1.db.albumItems = [] := by
  decide

/-! ### Page-level failure and the cursor (C5) -/

/-- C5 counterexample: when the fetch of page one exhausts its retries,
the persisted cursor is not reset or dropped — it still holds page one's
token, so the next run resumes at the failed page, not at page one of
the scan. -/
theorem sync_page_failure_cursor_not_reset_cex :
    twoPageFailAtOne.db.syncState = some 1 ∧
    twoPageFailAtOne.db.syncState ≠ none := by
  decide

/-! ### Organizer abort behaviour (C6) and idempotence failure (C8) -/

/-- C6 counterexample: a stale entry on record `a`'s album link path
makes `os.symlink` raise; nothing catches the exception, the pass
aborts, and record `b` — whose flat file is present — is never moved:
the organizer does not continue with the remaining records. -/
theorem organize_error_aborts_pass_cex :
    (organize_photos root0 dbOrg fsStaleLink).2 = true ∧
    (organize_photos root0 dbOrg fsStaleLink).1.get ["r", "b.jpg"]
      = some (.file "cb") ∧
    (organize_photos root0 dbOrg fsStaleLink).1.get ["r", "Unknown_Date", "b.jpg"]
      = none := by
  decide

/-- C8 counterexample: from a state holding a valid symlink that points
at record `b`'s flat file, the first organizer pass succeeds (the link
check passes while the target still exists, then the move of `b` breaks
the link); the second pass finds the link path "absent"
(`os.path.exists` follows the now-dangling link), calls `os.symlink`,
and raises `FileExistsError` — running the organizer twice is not the
same as running it once. -/
theorem organize_second_run_errors_cex :
    orgFirstPass.2 = false ∧
    (organize_photos root0 dbOrg orgFirstPass.1).2 = true := by
  decide

/-- `download_photo_attempt` never touches the interruption schedule. -/
theorem download_photo_attempt_checks (root : FPath) (item : Item)
    (fetchRes : Option String) (writeOk : Bool) (st : SyncSt) :
    (download_photo_attempt root item fetchRes writeOk st).1.checks = st.checks := by
  unfold download_photo_attempt
  cases fetchRes with
  | none => split <;> rfl
  | some c => cases writeOk <;> split <;> rfl

/-- `download_photo` never touches the interruption schedule. -/
theorem download_photo_checks (root : FPath) (content : String → String)
    (item : Item) (st : SyncSt) :
    (download_photo root content item st).checks = st.checks :=
  download_photo_attempt_checks root item (some (content item.id)) true st

/-- An uninterrupted item loop stays uninterrupted. -/
theorem processPageItems_checks_none (root : FPath) (content : String → String)
    (index : List (String × List String)) (items : List Item) :
    ∀ st : SyncSt, st.checks = none →
      (processPageItems root content index items st).checks = none := by
  induction items with
  | nil =>
    intro st h
    simpa [processPageItems] using h
  | cons item rest ih =>
    intro st h
    simp only [processPageItems, checkInterrupted, h]
    apply ih
    show (download_photo root content item st).checks = none
    rw [download_photo_checks]
    exact h

/-- `add_album` leaves `sync_state` untouched. -/
theorem foldl_add_album_syncState (albums : List Album) :
    ∀ db : DB, (albums.foldl add_album db).syncState = db.syncState := by
  induction albums with
  | nil => intro db; rfl
  | cons a rest ih =>
    intro db
    rw [List.foldl_cons, ih]
    unfold add_album
    split <;> rfl

/-- When the fetch of page `i` exhausts its retries in an uninterrupted
run started at page `idx ≤ i` (with page `i` within the scan), the run
ends with the durable cursor exactly as last committed: untouched when
the failure hits the first page fetched, and otherwise the token of the
failed page `i`, committed when page `i - 1` was completed. -/
theorem syncPages_exhaust_committed (root : FPath) (content : String → String)
    (index : List (String × List String)) (i : Nat) :
    ∀ (rest : List (List Item)) (idx : Nat) (st : SyncSt),
      st.checks = none → idx ≤ i → i - idx < rest.length →
      (syncPages root content index (fun j => j == i) idx rest st).conn.committed.syncState
        = if idx = i then st.conn.committed.syncState else some i := by
  intro rest
  induction rest with
  | nil =>
    intro idx st _ _ hlt
    simp at hlt
  | cons items tail ih =>
    intro idx st hch hle hlt
    by_cases hidx : idx = i
    · rw [if_pos hidx]
      simp only [syncPages, checkInterrupted, hch]
      rw [if_pos (by simp [hidx])]
    · rw [if_neg hidx]
      have hlt2 : idx < i := lt_of_le_of_ne hle hidx
      simp only [syncPages, checkInterrupted, hch]
      rw [if_neg (by simp [hidx])]
      cases tail with
      | nil =>
        exfalso
        simp at hlt
        omega
      | cons p2 ts =>
        refine (ih (idx + 1) _ ?_ ?_ ?_).trans ?_
        · exact processPageItems_checks_none root content index items st hch
        · omega
        · simp at hlt ⊢
          omega
        · by_cases h2 : idx + 1 = i
          · rw [if_pos h2]
            show some (idx + 1) = some i
            rw [h2]
          · rw [if_neg h2]

/-- C5 amended: when a page-fetch request exhausts its retries during
the date-range scan, the run ends (the retry wrapper's exhaustion error
is not caught by the loop's transient-failure handler) and the persisted
cursor is left at its last committed value — for a scan started from the
beginning that fails at page `i > 0`, the token of the failed page `i`
itself — so the next run resumes at the failed page; the cursor is not
reset or dropped and the scan does not restart from the first page. -/
theorem sync_page_failure_resumes_at_failed_page (root : FPath)
    (remote : Remote) (d0 : DB) (fs0 : Fs) (i : Nat)
    (h0 : d0.syncState = none) (h1 : 0 < i) (h2 : i < remote.pages.length) :
    (sync_photos root remote d0 fs0 none (fun j => j == i)).db.syncState
      = some i := by
  simp only [sync_photos, Conn.commit, Conn.closeDb]
  rw [foldl_add_album_syncState, h0]
  simp only [Option.getD_none, List.drop_zero]
  refine (syncPages_exhaust_committed _ _ _ _ _ _ _ rfl (Nat.zero_le i) ?_).trans ?_
  · simpa using h2
  · rw [if_neg (by omega)]

/-- Witness for `sync_page_failure_resumes_at_failed_page`: the two-page
catalog with the fetch of page one failing. -/
theorem sync_page_failure_resumes_at_failed_page_witness :
    dbEmpty.syncState = none ∧ 0 < 1 ∧ 1 < remoteTwoPages.pages.length ∧
    (sync_photos root0 remoteTwoPages dbEmpty fsEmpty none
      (fun j => j == 1)).db.syncState = some 1 :=
  ⟨rfl, by decide, by decide,
    sync_page_failure_resumes_at_failed_page root0 remoteTwoPages dbEmpty
      fsEmpty 1 rfl (by decide) (by decide)⟩

/-- C6 amended: a record whose backing file is absent from both the flat
location and its date-bucket location is logged and skipped — the pass
continues with the remaining records exactly as if the record were not
there (save for the created date-bucket directory).  (A raised
filesystem error, by contrast, aborts the pass: see the
counterexample.) -/
theorem organize_dangling_record_skipped (root : FPath) (fs : Fs)
    (row : OrgRow) (rest : List OrgRow)
    (h1 : fs.pathExists (rowOld root row) = false)
    (h2 : fs.pathExists (rowNew root row) = false) :
    organizeRows root (row :: rest) fs
      = organizeRows root rest (fs.mkdirs (rowDatePath root row)) := by
  simp only [rowOld] at h1
  simp only [rowNew] at h2
  have e : organizeRecord root fs row
      = (fs.mkdirs (root ++ [dateFolderOf row.creationTime]), false) := by
    simp only [organizeRecord, Fs.pathExists_mkdirs, h1, h2]
    simp
  simp only [organizeRows, e, rowDatePath]

/-- Witness for `organize_dangling_record_skipped` at a concrete dangling
record over the empty filesystem. -/
theorem organize_dangling_record_skipped_witness :
    fsEmpty.pathExists (rowOld root0 rowDangling) = false ∧
    fsEmpty.pathExists (rowNew root0 rowDangling) = false ∧
    organizeRows root0 [rowDangling] fsEmpty
      = organizeRows root0 [] (fsEmpty.mkdirs (rowDatePath root0 rowDangling)) :=
  ⟨by decide, by decide,
    organize_dangling_record_skipped root0 fsEmpty rowDangling []
      (by decide) (by decide)⟩

/-! ### Path algebra for the organizer -/

/-- Unequal lengths make unequal paths. -/
theorem ne_of_length_ne {p q : FPath} (h : p.length ≠ q.length) : p ≠ q :=
  fun he => h (he ▸ rfl)

theorem rowOld_length (root : FPath) (row : OrgRow) :
    (rowOld root row).length = root.length + 1 := by
  simp [rowOld]

theorem rowNew_length (root : FPath) (row : OrgRow) :
    (rowNew root row).length = root.length + 2 := by
  simp [rowNew]

theorem linkPathOf_length (root : FPath) (t filename : String) :
    (linkPathOf root t filename).length = root.length + 3 := by
  simp [linkPathOf]

theorem rowNew_eq (root : FPath) (row : OrgRow) :
    rowNew root row = root ++ [dateFolderOf row.creationTime, row.filename] := by
  simp [rowNew]

theorem linkPathOf_eq (root : FPath) (t filename : String) :
    linkPathOf root t filename = root ++ ["Albums", t, filename] := by
  simp [linkPathOf]

theorem append_single_inj (root : FPath) (a b : String)
    (h : root ++ [a] = root ++ [b]) : a = b := by
  have h2 := List.append_cancel_left h
  simpa using h2

theorem append_pair_inj (root : FPath) (a b c d : String)
    (h : root ++ [a, b] = root ++ [c, d]) : a = c ∧ b = d := by
  have h2 := List.append_cancel_left h
  simpa using h2

theorem append_triple_inj (root : FPath) (x y z u v w : String)
    (h : root ++ [x, y, z] = root ++ [u, v, w]) : x = u ∧ y = v ∧ z = w := by
  have h2 := List.append_cancel_left h
  simpa using h2

theorem rowOld_ne_rowOld (root : FPath) (r r' : OrgRow)
    (h : r.filename ≠ r'.filename) : rowOld root r ≠ rowOld root r' := by
  intro he
  exact h (append_single_inj root _ _ he)

theorem rowNew_ne_rowNew (root : FPath) (r r' : OrgRow)
    (h : r.filename ≠ r'.filename) : rowNew root r ≠ rowNew root r' := by
  intro he
  rw [rowNew_eq, rowNew_eq] at he
  exact h (append_pair_inj root _ _ _ _ he).2

theorem linkPathOf_ne_linkPathOf (root : FPath) (t t' f f' : String)
    (h : f ≠ f') : linkPathOf root t f ≠ linkPathOf root t' f' := by
  intro he
  rw [linkPathOf_eq, linkPathOf_eq] at he
  exact h (append_triple_inj root _ _ _ _ _ _ he).2.2

theorem rowOld_ne_rowNew (root : FPath) (r r' : OrgRow) :
    rowOld root r ≠ rowNew root r' :=
  ne_of_length_ne (by rw [rowOld_length, rowNew_length]; omega)

theorem rowOld_ne_linkPathOf (root : FPath) (r : OrgRow) (t f : String) :
    rowOld root r ≠ linkPathOf root t f :=
  ne_of_length_ne (by rw [rowOld_length, linkPathOf_length]; omega)

theorem rowNew_ne_linkPathOf (root : FPath) (r : OrgRow) (t f : String) :
    rowNew root r ≠ linkPathOf root t f :=
  ne_of_length_ne (by rw [rowNew_length, linkPathOf_length]; omega)

/-! ### `pathExists` helpers -/

theorem Fs.pathExists_of_get_file {fs : Fs} {p : FPath} {c : String}
    (h : fs.get p = some (.file c)) : fs.pathExists p = true := by
  simp [Fs.pathExists, h]

theorem Fs.pathExists_of_get_none {fs : Fs} {p : FPath}
    (h : fs.get p = none) : fs.pathExists p = false := by
  simp [Fs.pathExists, h]

theorem Fs.get_isSome_of_pathExists {fs : Fs} {p : FPath}
    (h : fs.pathExists p = true) : fs.get p ≠ none := by
  intro hn
  rw [Fs.pathExists_of_get_none hn] at h
  exact Bool.false_ne_true h


/-! ### `linkStep` lemmas -/

theorem linkStep_get_preserved (root : FPath) (filename : String)
    (newPath : FPath) (t : String) (fs : Fs) (q : FPath) (n : FsNode)
    (h : fs.get q = some n) :
    ((linkStep root filename newPath t fs).1).get q = some n := by
  simp only [linkStep]
  split
  · rw [Fs.get_mkdirs]
    exact h
  · split
    · rw [Fs.get_mkdirs]
      exact h
    · next hn =>
      rw [Fs.get_setE_ne, Fs.get_mkdirs]
      · exact h
      · intro he
        apply hn
        rw [Fs.get_mkdirs, ← he, h]
        rfl

theorem linkStep_get_none (root : FPath) (filename : String)
    (newPath : FPath) (t : String) (fs : Fs) (q : FPath)
    (h : fs.get q = none) (hq : q ≠ linkPathOf root t filename) :
    ((linkStep root filename newPath t fs).1).get q = none := by
  simp only [linkPathOf] at hq
  simp only [linkStep]
  split
  · rw [Fs.get_mkdirs]
    exact h
  · split
    · rw [Fs.get_mkdirs]
      exact h
    · rw [Fs.get_setE_ne _ _ _ _ hq, Fs.get_mkdirs]
      exact h

theorem linkStep_links_from (root : FPath) (filename : String)
    (newPath : FPath) (t : String) (fs : Fs) (q : FPath) (tgt : FPath)
    (h : ((linkStep root filename newPath t fs).1).get q = some (.link tgt)) :
    fs.get q = some (.link tgt) ∨ tgt = newPath := by
  revert h
  simp only [linkStep]
  split
  · intro h
    rw [Fs.get_mkdirs] at h
    exact Or.inl h
  · split
    · intro h
      rw [Fs.get_mkdirs] at h
      exact Or.inl h
    · intro h
      by_cases hq : q = (root ++ ["Albums", t]) ++ [filename]
      · right
        rw [hq, Fs.get_setE_self] at h
        injection h with h2
        injection h2 with h3
        exact h3.symm
      · left
        rw [Fs.get_setE_ne _ _ _ _ hq, Fs.get_mkdirs] at h
        exact h

theorem linkStep_dirs_mono (root : FPath) (filename : String)
    (newPath : FPath) (t : String) (fs : Fs) (q : FPath)
    (h : q ∈ fs.dirs) :
    q ∈ ((linkStep root filename newPath t fs).1).dirs := by
  simp only [linkStep]
  split
  · exact Fs.dirs_mkdirs_mono _ _ _ h
  · split
    · exact Fs.dirs_mkdirs_mono _ _ _ h
    · exact Fs.dirs_mkdirs_mono _ _ _ h

theorem linkStep_pathExists_mono (root : FPath) (filename : String)
    (newPath : FPath) (t : String) (fs : Fs) (q : FPath)
    (h : fs.pathExists q = true) :
    ((linkStep root filename newPath t fs).1).pathExists q = true := by
  unfold Fs.pathExists at h
  cases hq : fs.get q with
  | none => rw [hq] at h; exact absurd h (by simp)
  | some n =>
    cases n with
    | file c =>
      exact Fs.pathExists_of_get_file
        (linkStep_get_preserved root filename newPath t fs q _ hq)
    | link tgt =>
      rw [hq] at h
      simp only at h
      cases htgt : fs.get tgt with
      | none => rw [htgt] at h; exact absurd h (by simp)
      | some m =>
        have h1 := linkStep_get_preserved root filename newPath t fs q _ hq
        have h2 := linkStep_get_preserved root filename newPath t fs tgt _ htgt
        unfold Fs.pathExists
        rw [h1]
        simp [h2]

theorem linkStep_success_post (root : FPath) (filename : String)
    (newPath : FPath) (t : String) (fs : Fs) (n0 : FsNode)
    (hsucc : (linkStep root filename newPath t fs).2 = false)
    (hnew : fs.get newPath = some n0) :
    ((linkStep root filename newPath t fs).1).pathExists
        (linkPathOf root t filename) = true ∧
    albumDir root t ∈ ((linkStep root filename newPath t fs).1).dirs ∧
    ((linkStep root filename newPath t fs).1).get newPath = some n0 := by
  simp only [linkPathOf, albumDir]
  revert hsucc
  simp only [linkStep]
  split
  · next hex =>
    intro _
    exact ⟨hex, Fs.dirs_mkdirs_mem _ _, by rw [Fs.get_mkdirs]; exact hnew⟩
  · split
    · intro hfalse
      exact absurd hfalse (by simp)
    · next hex hn =>
      intro _
      have hlp : (fs.mkdirs (root ++ ["Albums", t])).get
          ((root ++ ["Albums", t]) ++ [filename]) = none := by
        cases hget : (fs.mkdirs (root ++ ["Albums", t])).get
            ((root ++ ["Albums", t]) ++ [filename]) with
        | none => rfl
        | some m => exact absurd (by rw [hget]; rfl) hn
      rw [Fs.get_mkdirs] at hlp
      have hne : newPath ≠ (root ++ ["Albums", t]) ++ [filename] := by
        intro he
        rw [he, hlp] at hnew
        exact Option.noConfusion hnew
      have hgetNew : ((fs.mkdirs (root ++ ["Albums", t])).setE
          ((root ++ ["Albums", t]) ++ [filename]) (.link newPath)).get newPath
            = some n0 := by
        rw [Fs.get_setE_ne _ _ _ _ hne, Fs.get_mkdirs]
        exact hnew
      refine ⟨?_, Fs.dirs_mkdirs_mem _ _, hgetNew⟩
      unfold Fs.pathExists
      rw [Fs.get_setE_self]
      dsimp only
      rw [hgetNew]
      rfl

theorem linkStep_skip (root : FPath) (filename : String) (newPath : FPath)
    (t : String) (fs : Fs)
    (h1 : albumDir root t ∈ fs.dirs)
    (h2 : fs.pathExists (linkPathOf root t filename) = true) :
    linkStep root filename newPath t fs = (fs, false) := by
  simp only [linkPathOf] at h2
  simp only [albumDir] at h1
  simp only [linkStep]
  rw [Fs.mkdirs_mem_eq _ _ h1, if_pos h2]

theorem linkStep_clean (root : FPath) (filename : String) (newPath : FPath)
    (t : String) (fs : Fs)
    (hnone : fs.get (linkPathOf root t filename) = none) :
    linkStep root filename newPath t fs =
      ((fs.mkdirs (albumDir root t)).setE (linkPathOf root t filename)
        (.link newPath), false) := by
  simp only [linkPathOf, albumDir] at hnone ⊢
  simp only [linkStep]
  have hget : (fs.mkdirs (root ++ ["Albums", t])).get
      ((root ++ ["Albums", t]) ++ [filename]) = none := by
    rw [Fs.get_mkdirs]
    exact hnone
  rw [if_neg (by rw [Fs.pathExists_of_get_none hget]; simp)]
  rw [if_neg (by rw [hget]; simp)]

theorem linkStep_already (root : FPath) (filename : String) (newPath : FPath)
    (t : String) (fs : Fs) (c : String)
    (hlink : fs.get (linkPathOf root t filename) = some (.link newPath))
    (hnew : fs.get newPath = some (.file c)) :
    linkStep root filename newPath t fs = (fs.mkdirs (albumDir root t), false) := by
  simp only [linkPathOf, albumDir] at hlink ⊢
  simp only [linkStep]
  rw [if_pos ?_]
  unfold Fs.pathExists
  rw [Fs.get_mkdirs, hlink]
  dsimp only
  rw [Fs.get_mkdirs, hnew]
  rfl

/-! ### `linkLoop` lemmas -/

theorem linkLoop_get_preserved (root : FPath) (filename : String)
    (newPath : FPath) :
    ∀ (ts : List String) (fs : Fs) (q : FPath) (n : FsNode),
      fs.get q = some n →
      ((linkLoop root filename newPath ts fs).1).get q = some n := by
  intro ts
  induction ts with
  | nil =>
    intro fs q n h
    simpa [linkLoop] using h
  | cons t rest ih =>
    intro fs q n h
    have hstep0 := linkStep_get_preserved root filename newPath t fs q n h
    rw [linkLoop]
    cases hstep : linkStep root filename newPath t fs with
    | mk fs1 b =>
      rw [hstep] at hstep0
      cases b
      · exact ih fs1 q n hstep0
      · exact hstep0

theorem linkLoop_get_none_frame (root : FPath) (filename : String)
    (newPath : FPath) :
    ∀ (ts : List String) (fs : Fs) (q : FPath),
      fs.get q = none →
      (∀ t ∈ ts, q ≠ linkPathOf root t filename) →
      ((linkLoop root filename newPath ts fs).1).get q = none := by
  intro ts
  induction ts with
  | nil =>
    intro fs q h _
    simpa [linkLoop] using h
  | cons t rest ih =>
    intro fs q h hne
    have hstep0 := linkStep_get_none root filename newPath t fs q h
      (hne t (List.mem_cons_self t rest))
    rw [linkLoop]
    cases hstep : linkStep root filename newPath t fs with
    | mk fs1 b =>
      rw [hstep] at hstep0
      cases b
      · exact ih fs1 q hstep0 (fun u hu => hne u (List.mem_cons_of_mem _ hu))
      · exact hstep0

theorem linkLoop_links_from (root : FPath) (filename : String)
    (newPath : FPath) :
    ∀ (ts : List String) (fs : Fs) (q : FPath) (tgt : FPath),
      ((linkLoop root filename newPath ts fs).1).get q = some (.link tgt) →
      fs.get q = some (.link tgt) ∨ tgt = newPath := by
  intro ts
  induction ts with
  | nil =>
    intro fs q tgt h
    left
    simpa [linkLoop] using h
  | cons t rest ih =>
    intro fs q tgt h
    rw [linkLoop] at h
    revert h
    cases hstep : linkStep root filename newPath t fs with
    | mk fs1 b =>
      intro h
      cases b
      · rcases ih fs1 q tgt h with h2 | h2
        · have h3 := linkStep_links_from root filename newPath t fs q tgt
            (by rw [hstep]; exact h2)
          exact h3
        · exact Or.inr h2
      · exact linkStep_links_from root filename newPath t fs q tgt
          (by rw [hstep]; exact h)

theorem linkLoop_dirs_mono (root : FPath) (filename : String)
    (newPath : FPath) :
    ∀ (ts : List String) (fs : Fs) (q : FPath),
      q ∈ fs.dirs → q ∈ ((linkLoop root filename newPath ts fs).1).dirs := by
  intro ts
  induction ts with
  | nil =>
    intro fs q h
    simpa [linkLoop] using h
  | cons t rest ih =>
    intro fs q h
    have hstep0 := linkStep_dirs_mono root filename newPath t fs q h
    rw [linkLoop]
    cases hstep : linkStep root filename newPath t fs with
    | mk fs1 b =>
      rw [hstep] at hstep0
      cases b
      · exact ih fs1 q hstep0
      · exact hstep0

theorem linkLoop_pathExists_mono (root : FPath) (filename : String)
    (newPath : FPath) (ts : List String) (fs : Fs) (q : FPath)
    (h : fs.pathExists q = true) :
    ((linkLoop root filename newPath ts fs).1).pathExists q = true := by
  unfold Fs.pathExists at h
  cases hq : fs.get q with
  | none => rw [hq] at h; exact absurd h (by simp)
  | some n =>
    cases n with
    | file c =>
      exact Fs.pathExists_of_get_file
        (linkLoop_get_preserved root filename newPath ts fs q _ hq)
    | link tgt =>
      rw [hq] at h
      simp only at h
      cases htgt : fs.get tgt with
      | none => rw [htgt] at h; exact absurd h (by simp)
      | some m =>
        have h1 := linkLoop_get_preserved root filename newPath ts fs q _ hq
        have h2 := linkLoop_get_preserved root filename newPath ts fs tgt _ htgt
        unfold Fs.pathExists
        rw [h1]
        simp [h2]

/-- A successful `linkLoop` run whose target file exists leaves every
title's link path existing and every album directory created (and the
target file untouched). -/
theorem linkLoop_success_post (root : FPath) (filename : String)
    (newPath : FPath) :
    ∀ (ts : List String) (fs : Fs) (n0 : FsNode),
      (linkLoop root filename newPath ts fs).2 = false →
      fs.get newPath = some n0 →
      ((linkLoop root filename newPath ts fs).1).get newPath = some n0 ∧
      ∀ t ∈ ts,
        ((linkLoop root filename newPath ts fs).1).pathExists
          (linkPathOf root t filename) = true ∧
        albumDir root t ∈ ((linkLoop root filename newPath ts fs).1).dirs := by
  intro ts
  induction ts with
  | nil =>
    intro fs n0 _ hnew
    refine ⟨by simpa [linkLoop] using hnew, ?_⟩
    intro t ht
    exact absurd ht (List.not_mem_nil t)
  | cons u rest ih =>
    intro fs n0 hsucc hnew
    rw [linkLoop] at hsucc ⊢
    revert hsucc
    cases hstep : linkStep root filename newPath u fs with
    | mk fs1 b =>
      intro hsucc
      cases b
      · have hpost := linkStep_success_post root filename newPath u fs n0
          (by rw [hstep]) hnew
        rw [hstep] at hpost
        obtain ⟨hlp, hdir, hnew1⟩ := hpost
        obtain ⟨hnewF, hrest⟩ := ih fs1 n0 hsucc hnew1
        refine ⟨hnewF, ?_⟩
        intro t ht
        rcases List.mem_cons.mp ht with he | hm
        · subst he
          exact ⟨linkLoop_pathExists_mono root filename newPath rest fs1 _ hlp,
            linkLoop_dirs_mono root filename newPath rest fs1 _ hdir⟩
        · exact hrest t hm
      · exact absurd hsucc (by simp)

/-- When every album directory already exists and every link path already
passes the `os.path.exists` check, the album loop is a no-op. -/
theorem linkLoop_skip_settled (root : FPath) (filename : String)
    (newPath : FPath) :
    ∀ (ts : List String) (fs : Fs),
      (∀ t ∈ ts, albumDir root t ∈ fs.dirs ∧
        fs.pathExists (linkPathOf root t filename) = true) →
      linkLoop root filename newPath ts fs = (fs, false) := by
  intro ts
  induction ts with
  | nil =>
    intro fs _
    rfl
  | cons u rest ih =>
    intro fs h
    have hu := h u (List.mem_cons_self u rest)
    rw [linkLoop, linkStep_skip root filename newPath u fs hu.1 hu.2]
    exact ih fs (fun t ht => h t (List.mem_cons_of_mem _ ht))

/-- The album loop run on clean link paths (each link path empty, or
already holding the correct link): no error, every title's link created,
the target file untouched, and nothing else changed. -/
theorem linkLoop_clean (root : FPath) (filename : String) (newPath : FPath) :
    ∀ (ts : List String) (fs : Fs) (c : String),
      fs.get newPath = some (.file c) →
      (∀ t ∈ ts, fs.get (linkPathOf root t filename) = none ∨
        fs.get (linkPathOf root t filename) = some (.link newPath)) →
      (linkLoop root filename newPath ts fs).2 = false ∧
      ((linkLoop root filename newPath ts fs).1).get newPath = some (.file c) ∧
      (∀ t ∈ ts, ((linkLoop root filename newPath ts fs).1).get
          (linkPathOf root t filename) = some (.link newPath)) ∧
      (∀ q, (∀ t ∈ ts, q ≠ linkPathOf root t filename) →
        ((linkLoop root filename newPath ts fs).1).get q = fs.get q) := by
  intro ts
  induction ts with
  | nil =>
    intro fs c hnew _
    refine ⟨rfl, by simpa [linkLoop] using hnew, ?_, ?_⟩
    · intro t ht
      exact absurd ht (List.not_mem_nil t)
    · intro q _
      rfl
  | cons u rest ih =>
    intro fs c hnew hcl
    rcases hcl u (List.mem_cons_self u rest) with hu | hu
    · -- the link path is empty: the symlink is created
      have hstep := linkStep_clean root filename newPath u fs hu
      have hne : newPath ≠ linkPathOf root u filename := by
        intro he
        rw [he, hu] at hnew
        exact Option.noConfusion hnew
      have hnew2 : ((fs.mkdirs (albumDir root u)).setE
          (linkPathOf root u filename) (.link newPath)).get newPath
            = some (.file c) := by
        rw [Fs.get_setE_ne _ _ _ _ hne, Fs.get_mkdirs]
        exact hnew
      have hcl2 : ∀ t ∈ rest,
          ((fs.mkdirs (albumDir root u)).setE (linkPathOf root u filename)
            (.link newPath)).get (linkPathOf root t filename) = none ∨
          ((fs.mkdirs (albumDir root u)).setE (linkPathOf root u filename)
            (.link newPath)).get (linkPathOf root t filename)
              = some (.link newPath) := by
        intro t ht
        by_cases he : linkPathOf root t filename = linkPathOf root u filename
        · right
          rw [he, Fs.get_setE_self]
        · rw [Fs.get_setE_ne _ _ _ _ he, Fs.get_mkdirs]
          exact hcl t (List.mem_cons_of_mem _ ht)
      obtain ⟨e2, hn2, hl2, hf2⟩ := ih _ c hnew2 hcl2
      rw [linkLoop, hstep]
      refine ⟨e2, hn2, ?_, ?_⟩
      · intro t ht
        rcases List.mem_cons.mp ht with he | hm
        · subst he
          by_cases hdup : ∀ t' ∈ rest,
              linkPathOf root t filename ≠ linkPathOf root t' filename
          · rw [hf2 _ hdup, Fs.get_setE_self]
          · push_neg at hdup
            obtain ⟨t', ht', heq⟩ := hdup
            have hres := hl2 t' ht'
            rw [← heq] at hres
            exact hres
        · exact hl2 t hm
      · intro q hq
        rw [hf2 q (fun t' ht' => hq t' (List.mem_cons_of_mem _ ht'))]
        rw [Fs.get_setE_ne _ _ _ _ (hq u (List.mem_cons_self u rest)),
          Fs.get_mkdirs]
    · -- the correct link is already there: the check passes
      have hstep := linkStep_already root filename newPath u fs c hu hnew
      have hnew1 : (fs.mkdirs (albumDir root u)).get newPath
          = some (.file c) := by
        rw [Fs.get_mkdirs]
        exact hnew
      have hcl1 : ∀ t ∈ rest,
          (fs.mkdirs (albumDir root u)).get (linkPathOf root t filename) = none ∨
          (fs.mkdirs (albumDir root u)).get (linkPathOf root t filename)
            = some (.link newPath) := by
        intro t ht
        rw [Fs.get_mkdirs]
        exact hcl t (List.mem_cons_of_mem _ ht)
      obtain ⟨e2, hn2, hl2, hf2⟩ := ih _ c hnew1 hcl1
      rw [linkLoop, hstep]
      refine ⟨e2, hn2, ?_, ?_⟩
      · intro t ht
        rcases List.mem_cons.mp ht with he | hm
        · subst he
          by_cases hdup : ∀ t' ∈ rest,
              linkPathOf root t filename ≠ linkPathOf root t' filename
          · rw [hf2 _ hdup, Fs.get_mkdirs]
            exact hu
          · push_neg at hdup
            obtain ⟨t', ht', heq⟩ := hdup
            have hres := hl2 t' ht'
            rw [← heq] at hres
            exact hres
        · exact hl2 t hm
      · intro q hq
        rw [hf2 q (fun t' ht' => hq t' (List.mem_cons_of_mem _ ht'))]
        rw [Fs.get_mkdirs]

/-! ### `organizeRecord` on a freshly synced (flat) record -/

/-- Processing one record whose file sits at the flat location, with its
date-bucket file slot and album link paths empty: no error; the file is
moved into the date bucket, the flat entry disappears, one link per
(split) album title is created pointing at the date-bucket location, and
no other path changes. -/
theorem organizeRecord_clean (root : FPath) (fs : Fs) (row : OrgRow)
    (c : String)
    (hold : fs.get (rowOld root row) = some (.file c))
    (hlinks : ∀ t, fs.get (linkPathOf root t row.filename) = none) :
    (organizeRecord root fs row).2 = false ∧
    ((organizeRecord root fs row).1).get (rowNew root row) = some (.file c) ∧
    ((organizeRecord root fs row).1).get (rowOld root row) = none ∧
    (∀ t ∈ rowAlbumTitles row, ((organizeRecord root fs row).1).get
        (linkPathOf root t row.filename) = some (.link (rowNew root row))) ∧
    (∀ q, q ≠ rowOld root row → q ≠ rowNew root row →
      (∀ t, q ≠ linkPathOf root t row.filename) →
      ((organizeRecord root fs row).1).get q = fs.get q) := by
  simp only [rowOld] at hold ⊢
  simp only [rowNew]
  have hmk : (fs.mkdirs (root ++ [dateFolderOf row.creationTime])).pathExists
      (root ++ [row.filename]) = true := by
    rw [Fs.pathExists_mkdirs]
    exact Fs.pathExists_of_get_file hold
  have emove : (fs.mkdirs (root ++ [dateFolderOf row.creationTime])).move
      (root ++ [row.filename])
      ((root ++ [dateFolderOf row.creationTime]) ++ [row.filename])
      = ((fs.mkdirs (root ++ [dateFolderOf row.creationTime])).removeE
          (root ++ [row.filename])).setE
          ((root ++ [dateFolderOf row.creationTime]) ++ [row.filename])
          (.file c) := by
    unfold Fs.move
    rw [Fs.get_mkdirs, hold]
  have heq : organizeRecord root fs row
      = linkLoop root row.filename
          ((root ++ [dateFolderOf row.creationTime]) ++ [row.filename])
          (splitAlbums (albumsField row.titles))
          (((fs.mkdirs (root ++ [dateFolderOf row.creationTime])).removeE
            (root ++ [row.filename])).setE
            ((root ++ [dateFolderOf row.creationTime]) ++ [row.filename])
            (.file c)) := by
    simp only [organizeRecord]
    rw [if_pos hmk, emove]
  have holdne : (root ++ [row.filename])
      ≠ (root ++ [dateFolderOf row.creationTime]) ++ [row.filename] := by
    have := rowOld_ne_rowNew root row row
    rw [rowOld, rowNew] at this
    exact this
  have hfsm_new : (((fs.mkdirs (root ++ [dateFolderOf row.creationTime])).removeE
      (root ++ [row.filename])).setE
      ((root ++ [dateFolderOf row.creationTime]) ++ [row.filename])
      (.file c)).get
      ((root ++ [dateFolderOf row.creationTime]) ++ [row.filename])
      = some (.file c) := Fs.get_setE_self _ _ _
  have hfsm_lp : ∀ t, (((fs.mkdirs (root ++ [dateFolderOf row.creationTime])).removeE
      (root ++ [row.filename])).setE
      ((root ++ [dateFolderOf row.creationTime]) ++ [row.filename])
      (.file c)).get (linkPathOf root t row.filename) = none := by
    intro t
    rw [Fs.get_setE_ne, Fs.get_removeE_ne, Fs.get_mkdirs]
    · exact hlinks t
    · have := rowOld_ne_linkPathOf root row t row.filename
      rw [rowOld] at this
      intro he
      exact this he.symm
    · have := rowNew_ne_linkPathOf root row t row.filename
      rw [rowNew] at this
      intro he
      exact this he.symm
  obtain ⟨e2, hn2, hl2, hf2⟩ := linkLoop_clean root row.filename
    ((root ++ [dateFolderOf row.creationTime]) ++ [row.filename])
    (splitAlbums (albumsField row.titles)) _ c hfsm_new
    (fun t _ => Or.inl (hfsm_lp t))
  rw [heq]
  refine ⟨e2, hn2, ?_, ?_, ?_⟩
  · -- the flat entry is gone
    have hfsm_old : (((fs.mkdirs (root ++ [dateFolderOf row.creationTime])).removeE
        (root ++ [row.filename])).setE
        ((root ++ [dateFolderOf row.creationTime]) ++ [row.filename])
        (.file c)).get (root ++ [row.filename]) = none := by
      rw [Fs.get_setE_ne _ _ _ _ holdne, Fs.get_removeE_self]
    rw [hf2 _ ?_]
    · exact hfsm_old
    · intro t _
      have := rowOld_ne_linkPathOf root row t row.filename
      rw [rowOld] at this
      exact this
  · -- the links
    intro t ht
    rw [rowAlbumTitles] at ht
    exact hl2 t ht
  · -- the frame
    intro q hqo hqn hql
    rw [hf2 q (fun t _ => hql t)]
    rw [Fs.get_setE_ne _ _ _ _ hqn, Fs.get_removeE_ne _ _ _ hqo, Fs.get_mkdirs]

/-- The full organizer pass over rows with pairwise distinct filenames,
starting from a state where every row's file sits at its flat location
and every album link path is empty (the state the sync phase produces):
no error, and every row ends up moved into its date bucket with one link
per split album title, while untouched paths keep their contents. -/
theorem organizeRows_flat (root : FPath) :
    ∀ (rows : List OrgRow) (fs : Fs),
      (rows.map (fun r => r.filename)).Nodup →
      (∀ r ∈ rows, ∃ c, fs.get (rowOld root r) = some (.file c)) →
      (∀ r ∈ rows, ∀ t, fs.get (linkPathOf root t r.filename) = none) →
      (organizeRows root rows fs).2 = false ∧
      (∀ r ∈ rows, ∃ c, fs.get (rowOld root r) = some (.file c) ∧
        ((organizeRows root rows fs).1).get (rowNew root r) = some (.file c) ∧
        ((organizeRows root rows fs).1).get (rowOld root r) = none ∧
        (∀ t ∈ rowAlbumTitles r, ((organizeRows root rows fs).1).get
          (linkPathOf root t r.filename) = some (.link (rowNew root r)))) ∧
      (∀ q, (∀ r ∈ rows, q ≠ rowOld root r ∧ q ≠ rowNew root r ∧
          ∀ t, q ≠ linkPathOf root t r.filename) →
        ((organizeRows root rows fs).1).get q = fs.get q) := by
  intro rows
  induction rows with
  | nil =>
    intro fs _ _ _
    refine ⟨rfl, ?_, ?_⟩
    · intro r hr
      exact absurd hr (List.not_mem_nil r)
    · intro q _
      rfl
  | cons row rest ih =>
    intro fs hnd hold hlinks
    rw [List.map_cons, List.nodup_cons] at hnd
    obtain ⟨hnotmem, hnd'⟩ := hnd
    have hfne : ∀ r' ∈ rest, r'.filename ≠ row.filename := by
      intro r' hr' he
      exact hnotmem (he ▸ List.mem_map_of_mem (fun r => r.filename) hr')
    obtain ⟨c, holdr⟩ := hold row (List.mem_cons_self row rest)
    obtain ⟨e1, hn1, ho1, hl1, hf1⟩ := organizeRecord_clean root fs row c holdr
      (hlinks row (List.mem_cons_self row rest))
    rw [organizeRows]
    revert e1 hn1 ho1 hl1 hf1
    cases hrec : organizeRecord root fs row with
    | mk fsa b =>
      intro e1 hn1 ho1 hl1 hf1
      cases b
      case true => exact absurd e1 (by simp)
      case false =>
      have hold' : ∀ r' ∈ rest, ∃ c', fsa.get (rowOld root r') = some (.file c') := by
        intro r' hr'
        obtain ⟨c', hc'⟩ := hold r' (List.mem_cons_of_mem _ hr')
        refine ⟨c', ?_⟩
        rw [hf1 _ ?_ ?_ ?_]
        · exact hc'
        · exact rowOld_ne_rowOld root r' row (fun he => hfne r' hr' he)
        · exact rowOld_ne_rowNew root r' row
        · intro t
          exact rowOld_ne_linkPathOf root r' t row.filename
      have hlinks' : ∀ r' ∈ rest, ∀ t,
          fsa.get (linkPathOf root t r'.filename) = none := by
        intro r' hr' t
        rw [hf1 _ ?_ ?_ ?_]
        · exact hlinks r' (List.mem_cons_of_mem _ hr') t
        · intro he
          exact rowOld_ne_linkPathOf root row t r'.filename he.symm
        · intro he
          exact rowNew_ne_linkPathOf root row t r'.filename he.symm
        · intro t'
          exact linkPathOf_ne_linkPathOf root t t' r'.filename row.filename
            (fun he => hfne r' hr' he)
      obtain ⟨e2, hout2, hf2⟩ := ih fsa hnd' hold' hlinks'
      have hrowUntouched : ∀ q, q.length ≠ root.length + 1 →
          (∀ r' ∈ rest, q ≠ rowNew root r') →
          q.length ≠ root.length + 3 →
          ((organizeRows root rest fsa).1).get q = fsa.get q := by
        intro q hq1 hq2 hq3
        refine hf2 q ?_
        intro r' hr'
        refine ⟨?_, hq2 r' hr', ?_⟩
        · exact fun he => hq1 (he ▸ rowOld_length root r')
        · intro t he
          exact hq3 (he ▸ linkPathOf_length root t r'.filename)
      refine ⟨e2, ?_, ?_⟩
      · intro r hr
        rcases List.mem_cons.mp hr with he | hm
        · subst he
          refine ⟨c, holdr, ?_, ?_, ?_⟩
          · rw [hrowUntouched _ ?_ ?_ ?_]
            · exact hn1
            · rw [rowNew_length]
              omega
            · intro r' hr'
              exact rowNew_ne_rowNew root r r' (fun he => hfne r' hr' he.symm)
            · rw [rowNew_length]
              omega
          · rw [hf2 _ ?_]
            · exact ho1
            · intro r' hr'
              refine ⟨rowOld_ne_rowOld root r r' (fun he => hfne r' hr' he.symm),
                rowOld_ne_rowNew root r r', ?_⟩
              intro t
              exact rowOld_ne_linkPathOf root r t r'.filename
          · intro t ht
            rw [hf2 _ ?_]
            · exact hl1 t ht
            · intro r' hr'
              refine ⟨?_, ?_, ?_⟩
              · intro he
                exact rowOld_ne_linkPathOf root r' t r.filename he.symm
              · intro he
                exact rowNew_ne_linkPathOf root r' t r.filename he.symm
              · intro t' he
                exact linkPathOf_ne_linkPathOf root t t' r.filename r'.filename
                  (fun hee => hfne r' hr' hee.symm) he
        · obtain ⟨c', hc1', hc2', hc3', hc4'⟩ := hout2 r hm
          refine ⟨c', ?_, hc2', hc3', hc4'⟩
          have hfr : fsa.get (rowOld root r) = fs.get (rowOld root r) := by
            refine hf1 _ ?_ ?_ ?_
            · exact rowOld_ne_rowOld root r row (fun he => hfne r hm he)
            · exact rowOld_ne_rowNew root r row
            · intro t
              exact rowOld_ne_linkPathOf root r t row.filename
          rw [← hfr]
          exact hc1'
      · intro q hq
        have hqrow := hq row (List.mem_cons_self row rest)
        rw [hf2 q (fun r' hr' => hq r' (List.mem_cons_of_mem _ hr'))]
        exact hf1 q hqrow.1 hqrow.2.1 hqrow.2.2

/-! ### `GROUP_CONCAT` / `split` roundtrip -/

theorem splitOnChar_ne_nil (sep : Char) (cs : List Char) :
    splitOnChar sep cs ≠ [] := by
  cases cs with
  | nil => simp [splitOnChar]
  | cons c rest =>
    simp only [splitOnChar]
    split
    · simp
    · split <;> simp

theorem splitOnChar_sepFree (sep : Char) (cs : List Char) (h : sep ∉ cs) :
    splitOnChar sep cs = [cs] := by
  induction cs with
  | nil => rfl
  | cons c rest ih =>
    have hc : c ≠ sep := fun he => h (he ▸ List.mem_cons_self c rest)
    have hrest : sep ∉ rest := fun hm => h (List.mem_cons_of_mem _ hm)
    simp only [splitOnChar, ih hrest]
    rw [if_neg hc]

theorem splitOnChar_append (sep : Char) (A B : List Char) (hA : sep ∉ A) :
    splitOnChar sep (A ++ sep :: B) = A :: splitOnChar sep B := by
  induction A with
  | nil =>
    have hstep : splitOnChar sep ([] ++ sep :: B)
        = match splitOnChar sep B with
          | [] => [[sep]]
          | h :: t => if sep = sep then [] :: h :: t else (sep :: h) :: t := rfl
    rw [hstep]
    cases hB : splitOnChar sep B with
    | nil => exact absurd hB (splitOnChar_ne_nil sep B)
    | cons h t =>
      dsimp only
      rw [if_pos rfl]
  | cons a A' ih =>
    have ha : a ≠ sep := fun he => hA (he ▸ List.mem_cons_self a A')
    have hA' : sep ∉ A' := fun hm => hA (List.mem_cons_of_mem _ hm)
    have hstep : splitOnChar sep ((a :: A') ++ sep :: B)
        = match splitOnChar sep (A' ++ sep :: B) with
          | [] => [[a]]
          | h :: t => if a = sep then [] :: h :: t else (a :: h) :: t := rfl
    rw [hstep, ih hA']
    dsimp only
    rw [if_neg ha]

theorem pySplit_concat (ts : List String) (hne : ts ≠ [])
    (hpipe : ∀ t ∈ ts, ¬ '|' ∈ t.data) :
    pySplit '|' (concatTitles ts) = ts := by
  induction ts with
  | nil => exact absurd rfl hne
  | cons t rest ih =>
    cases rest with
    | nil =>
      show pySplit '|' t = [t]
      unfold pySplit
      rw [splitOnChar_sepFree '|' t.data (hpipe t (List.mem_cons_self t []))]
      rfl
    | cons t2 rest' =>
      have hdata : (concatTitles (t :: t2 :: rest')).data
          = t.data ++ '|' :: (concatTitles (t2 :: rest')).data := by
        show (t ++ "|" ++ concatTitles (t2 :: rest')).data = _
        rw [String.data_append, String.data_append, List.append_assoc]
        rfl
      unfold pySplit
      rw [hdata, splitOnChar_append '|' _ _ (hpipe t (List.mem_cons_self t _))]
      have ihr := ih (by simp) (fun u hu => hpipe u (List.mem_cons_of_mem _ hu))
      unfold pySplit at ihr
      simp only [List.map_cons, ihr]

/-- For titles that are nonempty and free of the separator, the
organizer's `GROUP_CONCAT` plus `split("|")` pipeline reproduces exactly
the list of associated titles. -/
theorem splitAlbums_concat (ts : List String)
    (h : ∀ t ∈ ts, t ≠ "" ∧ ¬ '|' ∈ t.data) :
    splitAlbums (albumsField ts) = ts := by
  cases ts with
  | nil => rfl
  | cons t rest =>
    have hconcat : concatTitles (t :: rest) ≠ "" := by
      cases rest with
      | nil => exact (h t (List.mem_cons_self t [])).1
      | cons t2 rest' =>
        intro he
        have hd : (concatTitles (t :: t2 :: rest')).data = [] := by
          rw [he]
        rw [show (concatTitles (t :: t2 :: rest')).data
            = t.data ++ '|' :: (concatTitles (t2 :: rest')).data from by
          show (t ++ "|" ++ concatTitles (t2 :: rest')).data = _
          rw [String.data_append, String.data_append, List.append_assoc]
          rfl] at hd
        exact absurd hd (by simp)
    show splitAlbums (some (concatTitles (t :: rest))) = t :: rest
    unfold splitAlbums
    dsimp only
    rw [if_neg (by simpa using hconcat)]
    exact pySplit_concat (t :: rest) (by simp) (fun u hu => (h u hu).2)

/-- C7: over a freshly synced state (each record's file at the flat
location, link paths clear), with pairwise distinct filenames and
well-formed titles (nonempty, no separator character), the organizer
completes without error and, for every `downloaded_files` record, moves
the file into the `"%04d-%02d"` bucket derived from its capture time —
`Unknown_Date` when it is absent — and leaves, for each album title
associated with the record, a link named after the record's filename
under `Albums/<title>/` pointing at the file's date-bucket location. -/
theorem organize_places_and_links (root : FPath) (db : DB) (fs : Fs)
    (hnd : (db.downloadedFiles.map (fun r => r.filename)).Nodup)
    (hold : ∀ r ∈ db.downloadedFiles, ∃ c,
      fs.get (root ++ [r.filename]) = some (.file c))
    (hlinks : ∀ r ∈ db.downloadedFiles, ∀ t,
      fs.get (linkPathOf root t r.filename) = none)
    (htitles : ∀ r ∈ db.downloadedFiles, ∀ t ∈ titlesFor db r.fileId,
      t ≠ "" ∧ ¬ '|' ∈ t.data) :
    (organize_photos root db fs).2 = false ∧
    ∀ r ∈ db.downloadedFiles,
      (∃ c, (organize_photos root db fs).1.get
        ((root ++ [dateFolderOf r.creationTime]) ++ [r.filename])
          = some (.file c)) ∧
      (organize_photos root db fs).1.get (root ++ [r.filename]) = none ∧
      ∀ t ∈ titlesFor db r.fileId,
        (organize_photos root db fs).1.get (linkPathOf root t r.filename)
          = some (.link
              ((root ++ [dateFolderOf r.creationTime]) ++ [r.filename])) := by
  have hmapeq : (rowsOf db).map (fun r => r.filename)
      = db.downloadedFiles.map (fun r => r.filename) := by
    rw [rowsOf, List.map_map]
    rfl
  obtain ⟨e, hout, _⟩ := organizeRows_flat root (rowsOf db) fs
    (by rw [hmapeq]; exact hnd)
    (by
      intro row hrow
      rw [rowsOf] at hrow
      obtain ⟨rec, hrec, hfr⟩ := List.mem_map.mp hrow
      subst hfr
      exact hold rec hrec)
    (by
      intro row hrow t
      rw [rowsOf] at hrow
      obtain ⟨rec, hrec, hfr⟩ := List.mem_map.mp hrow
      subst hfr
      exact hlinks rec hrec t)
  refine ⟨e, ?_⟩
  intro r hr
  have hmem : rowForRec db r ∈ rowsOf db := by
    rw [rowsOf]
    exact List.mem_map_of_mem _ hr
  obtain ⟨c, _, hc2, hc3, hc4⟩ := hout _ hmem
  have hteq : rowAlbumTitles (rowForRec db r) = titlesFor db r.fileId :=
    splitAlbums_concat _ (htitles r hr)
  refine ⟨⟨c, hc2⟩, hc3, ?_⟩
  intro t ht
  exact hc4 t (by rw [hteq]; exact ht)

/-- Witness for `organize_places_and_links`: the two-record ledger over
the flat filesystem produced by a sync, instantiated at record `a` and
its album title `T`. -/
theorem organize_places_and_links_witness :
    (dbOrg.downloadedFiles.map (fun r => r.filename)).Nodup ∧
    (organize_photos root0 dbOrg fsFlat2).2 = false ∧
    (∃ c, (organize_photos root0 dbOrg fsFlat2).1.get
      ((root0 ++ [dateFolderOf (none : Option (Nat × Nat))]) ++ ["a.jpg"])
        = some (.file c)) ∧
    (organize_photos root0 dbOrg fsFlat2).1.get (root0 ++ ["a.jpg"]) = none ∧
    (organize_photos root0 dbOrg fsFlat2).1.get (linkPathOf root0 "T" "a.jpg")
      = some (.link ((root0 ++ [dateFolderOf (none : Option (Nat × Nat))])
          ++ ["a.jpg"])) := by
  have hmain := organize_places_and_links root0 dbOrg fsFlat2
    (by decide)
    (by
      intro r hr
      rcases List.mem_cons.mp hr with h | h
      · subst h
        exact ⟨"ca", by decide⟩
      · rcases List.mem_cons.mp h with h2 | h2
        · subst h2
          exact ⟨"cb", by decide⟩
        · exact absurd h2 (List.not_mem_nil r))
    (by
      intro r hr t
      rcases List.mem_cons.mp hr with h | h
      · subst h
        rfl
      · rcases List.mem_cons.mp h with h2 | h2
        · subst h2
          rfl
        · exact absurd h2 (List.not_mem_nil r))
    (by
      intro r hr t ht
      rcases List.mem_cons.mp hr with h | h
      · subst h
        rw [show titlesFor dbOrg "a" = ["T"] from by decide] at ht
        rcases List.mem_cons.mp ht with h2 | h2
        · subst h2
          exact ⟨by decide, by decide⟩
        · exact absurd h2 (List.not_mem_nil t)
      · rcases List.mem_cons.mp h with h2 | h2
        · subst h2
          rw [show titlesFor dbOrg "b" = [] from by decide] at ht
          exact absurd ht (List.not_mem_nil t)
        · exact absurd h2 (List.not_mem_nil r))
  have hrec := hmain.2
    ({ fileId := "a", filename := "a.jpg", creationTime := none, meta := "" })
    (by decide)
  exact ⟨by decide, hmain.1, hrec.1, hrec.2.1,
    hrec.2.2 "T" (by rw [show titlesFor dbOrg "a" = ["T"] from by decide]; decide)⟩

/-! ### Link discipline and settled records -/

theorem Fs.get_mem {fs : Fs} {q : FPath} {n : FsNode}
    (h : fs.get q = some n) : ∃ p, (p, n) ∈ fs.entries := by
  unfold Fs.get at h
  cases hf : fs.entries.find? (fun e => e.1 == q) with
  | none => rw [hf] at h; exact Option.noConfusion h
  | some e =>
    rw [hf] at h
    have hn : e.2 = n := by
      injection h
    exact ⟨e.1, by
      have hmem := List.mem_of_find?_eq_some hf
      rw [← hn]
      exact hmem⟩

theorem goodLinks_of_linkFree (root : FPath) (fs : Fs)
    (h : fs.linkFree = true) : GoodLinks root fs := by
  intro q tgt hq
  exfalso
  obtain ⟨p, hp⟩ := Fs.get_mem hq
  have := List.all_eq_true.mp h _ hp
  simp at this

theorem pathExists_of_goodLinks {root : FPath} {fs : Fs} {p : FPath}
    {n : FsNode} (hG : GoodLinks root fs) (h : fs.get p = some n) :
    fs.pathExists p = true := by
  cases n with
  | file c => exact Fs.pathExists_of_get_file h
  | link tgt =>
    have := (hG p tgt h).2
    unfold Fs.pathExists
    rw [h]
    cases htgt : fs.get tgt with
    | none => exact absurd htgt this
    | some m =>
      dsimp only
      rw [htgt]
      rfl

theorem get_none_of_goodLinks {root : FPath} {fs : Fs} {p : FPath}
    (hG : GoodLinks root fs) (h : fs.pathExists p = false) :
    fs.get p = none := by
  cases hg : fs.get p with
  | none => rfl
  | some n =>
    rw [pathExists_of_goodLinks hG hg] at h
    exact absurd h (by simp)

/-- A settled record is a no-op for the organizer. -/
theorem organizeRecord_settled (root : FPath) (fs : Fs) (row : OrgRow)
    (hS : Settled root fs row) :
    organizeRecord root fs row = (fs, false) := by
  obtain ⟨hold, hdir, hlinks⟩ := hS
  rw [rowDatePath] at hdir
  rw [rowOld] at hold
  simp only [organizeRecord]
  rw [Fs.mkdirs_mem_eq _ _ hdir]
  rw [if_neg (by rw [Fs.pathExists_of_get_none hold]; simp)]
  by_cases hnew : fs.pathExists ((root ++ [dateFolderOf row.creationTime])
      ++ [row.filename]) = true
  · rw [if_neg (by rw [hnew]; simp)]
    refine linkLoop_skip_settled root row.filename _ _ _ ?_
    intro t ht
    exact hlinks (by rw [rowNew]; exact hnew) t (by rw [rowAlbumTitles]; exact ht)
  · rw [Bool.not_eq_true] at hnew
    rw [if_pos (by rw [hnew]; rfl)]

/-- A pass over settled records is a no-op. -/
theorem organizeRows_settled (root : FPath) :
    ∀ (rows : List OrgRow) (fs : Fs),
      (∀ r ∈ rows, Settled root fs r) →
      organizeRows root rows fs = (fs, false) := by
  intro rows
  induction rows with
  | nil =>
    intro fs _
    rfl
  | cons row rest ih =>
    intro fs h
    rw [organizeRows, organizeRecord_settled root fs row
      (h row (List.mem_cons_self row rest))]
    exact ih fs (fun r hr => h r (List.mem_cons_of_mem _ hr))

theorem Fs.dirs_setE (fs : Fs) (p : FPath) (n : FsNode) :
    (fs.setE p n).dirs = fs.dirs := rfl

theorem Fs.dirs_removeE (fs : Fs) (p : FPath) :
    (fs.removeE p).dirs = fs.dirs := rfl

/-! ### The three branches of `organizeRecord` -/

/-- The move branch: the file (or link) still sits at the flat
location. -/
theorem organizeRecord_eq_move (root : FPath) (fs : Fs) (row : OrgRow)
    (n0 : FsNode) (hold : fs.get (rowOld root row) = some n0)
    (hpe : fs.pathExists (rowOld root row) = true) :
    organizeRecord root fs row
      = linkLoop root row.filename (rowNew root row) (rowAlbumTitles row)
          (((fs.mkdirs (rowDatePath root row)).removeE (rowOld root row)).setE
            (rowNew root row) n0) := by
  rw [rowOld] at hold hpe
  rw [rowNew, rowDatePath, rowAlbumTitles, rowOld]
  simp only [organizeRecord]
  rw [if_pos (by rw [Fs.pathExists_mkdirs]; exact hpe)]
  have hmv : (fs.mkdirs (root ++ [dateFolderOf row.creationTime])).move
      (root ++ [row.filename])
      ((root ++ [dateFolderOf row.creationTime]) ++ [row.filename])
      = ((fs.mkdirs (root ++ [dateFolderOf row.creationTime])).removeE
          (root ++ [row.filename])).setE
          ((root ++ [dateFolderOf row.creationTime]) ++ [row.filename]) n0 := by
    unfold Fs.move
    rw [Fs.get_mkdirs, hold]
  rw [hmv]

/-- The dangling branch: the file is at neither location; the record is
skipped after the date directory is ensured. -/
theorem organizeRecord_eq_dangling (root : FPath) (fs : Fs) (row : OrgRow)
    (hpo : fs.pathExists (rowOld root row) = false)
    (hpn : fs.pathExists (rowNew root row) = false) :
    organizeRecord root fs row = (fs.mkdirs (rowDatePath root row), false) := by
  rw [rowOld] at hpo
  rw [rowNew] at hpn
  rw [rowDatePath]
  simp only [organizeRecord]
  rw [if_neg (by rw [Fs.pathExists_mkdirs, hpo]; simp)]
  rw [if_pos (by rw [Fs.pathExists_mkdirs, hpn]; rfl)]

/-- The already-moved branch: the file already sits in its date bucket;
only the album links are handled. -/
theorem organizeRecord_eq_links (root : FPath) (fs : Fs) (row : OrgRow)
    (hpo : fs.pathExists (rowOld root row) = false)
    (hpn : fs.pathExists (rowNew root row) = true) :
    organizeRecord root fs row
      = linkLoop root row.filename (rowNew root row) (rowAlbumTitles row)
          (fs.mkdirs (rowDatePath root row)) := by
  rw [rowOld] at hpo
  rw [rowNew] at hpn
  rw [rowNew, rowDatePath, rowAlbumTitles]
  simp only [organizeRecord]
  rw [if_neg (by rw [Fs.pathExists_mkdirs, hpo]; simp)]
  rw [if_neg (by rw [Fs.pathExists_mkdirs, hpn]; simp)]

/-- Frame facts of one successful `organizeRecord` run: entries other
than the record's flat entry keep existing; nothing appears at flat
depth; directories only grow; and an empty date-bucket slot stays empty
unless it is this record's own slot being filled by the move. -/
theorem organizeRecord_effects (root : FPath) (fs : Fs) (row : OrgRow)
    (fs' : Fs) (hG : GoodLinks root fs)
    (h : organizeRecord root fs row = (fs', false)) :
    (∀ q n, fs.get q = some n → q ≠ rowOld root row → fs'.get q ≠ none) ∧
    (∀ q, fs.get q = none → q.length = root.length + 1 → fs'.get q = none) ∧
    (∀ q, q ∈ fs.dirs → q ∈ fs'.dirs) ∧
    (∀ q, fs.get q = none → q.length = root.length + 2 →
      (q ≠ rowNew root row ∨ fs.get (rowOld root row) = none) →
      fs'.get q = none) := by
  by_cases hpo : fs.pathExists (rowOld root row) = true
  · have hone : fs.get (rowOld root row) ≠ none := Fs.get_isSome_of_pathExists hpo
    cases hold : fs.get (rowOld root row) with
    | none => exact absurd hold hone
    | some n0 =>
    have heq := organizeRecord_eq_move root fs row n0 hold hpo
    rw [heq] at h
    have h1 : fs' = (linkLoop root row.filename (rowNew root row)
        (rowAlbumTitles row) (((fs.mkdirs (rowDatePath root row)).removeE
          (rowOld root row)).setE (rowNew root row) n0)).1 := by
      rw [h]
    refine ⟨?_, ?_, ?_, ?_⟩
    · intro q n hq hqo
      by_cases hqn : q = rowNew root row
      · subst hqn
        rw [h1, linkLoop_get_preserved _ _ _ _ _ _ n0 (Fs.get_setE_self _ _ _)]
        simp
      · have hfm : (((fs.mkdirs (rowDatePath root row)).removeE
            (rowOld root row)).setE (rowNew root row) n0).get q = some n := by
          rw [Fs.get_setE_ne _ _ _ _ hqn, Fs.get_removeE_ne _ _ _ hqo,
            Fs.get_mkdirs]
          exact hq
        rw [h1, linkLoop_get_preserved _ _ _ _ _ _ _ hfm]
        simp
    · intro q hq hlen
      have hqo : q ≠ rowOld root row := fun he => hone (he ▸ hq)
      have hqn : q ≠ rowNew root row :=
        ne_of_length_ne (by rw [hlen, rowNew_length]; omega)
      have hfm : (((fs.mkdirs (rowDatePath root row)).removeE
          (rowOld root row)).setE (rowNew root row) n0).get q = none := by
        rw [Fs.get_setE_ne _ _ _ _ hqn, Fs.get_removeE_ne _ _ _ hqo,
          Fs.get_mkdirs]
        exact hq
      rw [h1]
      refine linkLoop_get_none_frame _ _ _ _ _ _ hfm ?_
      intro t _
      exact ne_of_length_ne (by rw [hlen, linkPathOf_length]; omega)
    · intro q hq
      rw [h1]
      refine linkLoop_dirs_mono _ _ _ _ _ _ ?_
      rw [Fs.dirs_setE, Fs.dirs_removeE]
      exact Fs.dirs_mkdirs_mono _ _ _ hq
    · intro q hq hlen hdisj
      have hqn : q ≠ rowNew root row := by
        rcases hdisj with hd | hd
        · exact hd
        · exact Option.noConfusion hd
      have hqo : q ≠ rowOld root row :=
        ne_of_length_ne (by rw [hlen, rowOld_length]; omega)
      have hfm : (((fs.mkdirs (rowDatePath root row)).removeE
          (rowOld root row)).setE (rowNew root row) n0).get q = none := by
        rw [Fs.get_setE_ne _ _ _ _ hqn, Fs.get_removeE_ne _ _ _ hqo,
          Fs.get_mkdirs]
        exact hq
      rw [h1]
      refine linkLoop_get_none_frame _ _ _ _ _ _ hfm ?_
      intro t _
      exact ne_of_length_ne (by rw [hlen, linkPathOf_length]; omega)
  · rw [Bool.not_eq_true] at hpo
    have holdn : fs.get (rowOld root row) = none := get_none_of_goodLinks hG hpo
    by_cases hpn : fs.pathExists (rowNew root row) = true
    · have heq := organizeRecord_eq_links root fs row hpo hpn
      rw [heq] at h
      have h1 : fs' = (linkLoop root row.filename (rowNew root row)
          (rowAlbumTitles row) (fs.mkdirs (rowDatePath root row))).1 := by
        rw [h]
      refine ⟨?_, ?_, ?_, ?_⟩
      · intro q n hq _
        rw [h1, linkLoop_get_preserved _ _ _ _ _ _ n
          (by rw [Fs.get_mkdirs]; exact hq)]
        simp
      · intro q hq hlen
        rw [h1]
        refine linkLoop_get_none_frame _ _ _ _ _ _
          (by rw [Fs.get_mkdirs]; exact hq) ?_
        intro t _
        exact ne_of_length_ne (by rw [hlen, linkPathOf_length]; omega)
      · intro q hq
        rw [h1]
        exact linkLoop_dirs_mono _ _ _ _ _ _ (Fs.dirs_mkdirs_mono _ _ _ hq)
      · intro q hq hlen _
        rw [h1]
        refine linkLoop_get_none_frame _ _ _ _ _ _
          (by rw [Fs.get_mkdirs]; exact hq) ?_
        intro t _
        exact ne_of_length_ne (by rw [hlen, linkPathOf_length]; omega)
    · rw [Bool.not_eq_true] at hpn
      have heq := organizeRecord_eq_dangling root fs row hpo hpn
      rw [heq] at h
      have h1 : fs' = fs.mkdirs (rowDatePath root row) := by
        injection h with h1 _
        exact h1.symm
      subst h1
      refine ⟨?_, ?_, ?_, ?_⟩
      · intro q n hq _
        rw [Fs.get_mkdirs, hq]
        simp
      · intro q hq _
        rw [Fs.get_mkdirs]
        exact hq
      · intro q hq
        exact Fs.dirs_mkdirs_mono _ _ _ hq
      · intro q hq _ _
        rw [Fs.get_mkdirs]
        exact hq

/-- One successful `organizeRecord` run preserves the link discipline
and leaves its own record settled. -/
theorem organizeRecord_establishes (root : FPath) (fs : Fs) (row : OrgRow)
    (fs' : Fs) (hG : GoodLinks root fs)
    (h : organizeRecord root fs row = (fs', false)) :
    GoodLinks root fs' ∧ Settled root fs' row := by
  obtain ⟨e2, _, e4, _⟩ := organizeRecord_effects root fs row fs' hG h
  by_cases hpo : fs.pathExists (rowOld root row) = true
  · -- move branch
    have hone : fs.get (rowOld root row) ≠ none := Fs.get_isSome_of_pathExists hpo
    cases hold : fs.get (rowOld root row) with
    | none => exact absurd hold hone
    | some n0 =>
    have heq := organizeRecord_eq_move root fs row n0 hold hpo
    rw [heq] at h
    have h1 : fs' = (linkLoop root row.filename (rowNew root row)
        (rowAlbumTitles row) (((fs.mkdirs (rowDatePath root row)).removeE
          (rowOld root row)).setE (rowNew root row) n0)).1 := by
      rw [h]
    have hsucc : (linkLoop root row.filename (rowNew root row)
        (rowAlbumTitles row) (((fs.mkdirs (rowDatePath root row)).removeE
          (rowOld root row)).setE (rowNew root row) n0)).2 = false := by
      rw [h]
    have fm_new : (((fs.mkdirs (rowDatePath root row)).removeE
        (rowOld root row)).setE (rowNew root row) n0).get (rowNew root row)
          = some n0 := Fs.get_setE_self _ _ _
    have fm_old : (((fs.mkdirs (rowDatePath root row)).removeE
        (rowOld root row)).setE (rowNew root row) n0).get (rowOld root row)
          = none := by
      rw [Fs.get_setE_ne _ _ _ _ (rowOld_ne_rowNew root row row),
        Fs.get_removeE_self]
    have hnewExists : fs'.get (rowNew root row) = some n0 := by
      rw [h1]
      exact linkLoop_get_preserved _ _ _ _ _ _ _ fm_new
    have hGL : GoodLinks root fs' := by
      intro q tgt hq
      rw [h1] at hq
      rcases linkLoop_links_from _ _ _ _ _ _ _ hq with hfm | htgt
      · by_cases hqn : q = rowNew root row
        · subst hqn
          rw [fm_new] at hfm
          have hn0 : n0 = .link tgt := by injection hfm
          rw [hn0] at hold
          obtain ⟨hlen, hex⟩ := hG _ _ hold
          refine ⟨hlen, ?_⟩
          cases hm : fs.get tgt with
          | none => exact absurd hm hex
          | some m =>
            exact e2 tgt m hm
              (ne_of_length_ne (by rw [hlen, rowOld_length]; omega))
        · have hqo : q ≠ rowOld root row := by
            intro he
            rw [he, fm_old] at hfm
            exact Option.noConfusion hfm
          have hfs : fs.get q = some (.link tgt) := by
            rw [← Fs.get_mkdirs fs (rowDatePath root row) q,
              ← Fs.get_removeE_ne _ _ _ hqo, ← Fs.get_setE_ne _ _ _ n0 hqn]
            exact hfm
          obtain ⟨hlen, hex⟩ := hG _ _ hfs
          refine ⟨hlen, ?_⟩
          cases hm : fs.get tgt with
          | none => exact absurd hm hex
          | some m =>
            exact e2 tgt m hm
              (ne_of_length_ne (by rw [hlen, rowOld_length]; omega))
      · subst htgt
        refine ⟨rowNew_length root row, ?_⟩
        rw [hnewExists]
        simp
    refine ⟨hGL, ?_, ?_, ?_⟩
    · rw [h1]
      refine linkLoop_get_none_frame _ _ _ _ _ _ fm_old ?_
      intro t _
      exact rowOld_ne_linkPathOf root row t row.filename
    · rw [h1]
      refine linkLoop_dirs_mono _ _ _ _ _ _ ?_
      rw [Fs.dirs_setE, Fs.dirs_removeE]
      exact Fs.dirs_mkdirs_mem _ _
    · intro _ t ht
      obtain ⟨_, hpost⟩ := linkLoop_success_post root row.filename
        (rowNew root row) (rowAlbumTitles row) _ n0 hsucc fm_new
      obtain ⟨hlp, hdir⟩ := hpost t ht
      rw [h1]
      exact ⟨hdir, hlp⟩
  · rw [Bool.not_eq_true] at hpo
    have holdn : fs.get (rowOld root row) = none := get_none_of_goodLinks hG hpo
    by_cases hpn : fs.pathExists (rowNew root row) = true
    · -- links branch
      have hnone : fs.get (rowNew root row) ≠ none :=
        Fs.get_isSome_of_pathExists hpn
      cases hn1 : fs.get (rowNew root row) with
      | none => exact absurd hn1 hnone
      | some n1 =>
      have heq := organizeRecord_eq_links root fs row hpo hpn
      rw [heq] at h
      have h1 : fs' = (linkLoop root row.filename (rowNew root row)
          (rowAlbumTitles row) (fs.mkdirs (rowDatePath root row))).1 := by
        rw [h]
      have hsucc : (linkLoop root row.filename (rowNew root row)
          (rowAlbumTitles row) (fs.mkdirs (rowDatePath root row))).2 = false := by
        rw [h]
      have fb_new : (fs.mkdirs (rowDatePath root row)).get (rowNew root row)
          = some n1 := by
        rw [Fs.get_mkdirs]
        exact hn1
      have hGL : GoodLinks root fs' := by
        intro q tgt hq
        rw [h1] at hq
        rcases linkLoop_links_from _ _ _ _ _ _ _ hq with hfm | htgt
        · rw [Fs.get_mkdirs] at hfm
          obtain ⟨hlen, hex⟩ := hG _ _ hfm
          refine ⟨hlen, ?_⟩
          cases hm : fs.get tgt with
          | none => exact absurd hm hex
          | some m =>
            exact e2 tgt m hm
              (ne_of_length_ne (by rw [hlen, rowOld_length]; omega))
        · subst htgt
          refine ⟨rowNew_length root row, ?_⟩
          rw [h1, linkLoop_get_preserved _ _ _ _ _ _ _ fb_new]
          simp
      refine ⟨hGL, ?_, ?_, ?_⟩
      · rw [h1]
        refine linkLoop_get_none_frame _ _ _ _ _ _
          (by rw [Fs.get_mkdirs]; exact holdn) ?_
        intro t _
        exact rowOld_ne_linkPathOf root row t row.filename
      · rw [h1]
        exact linkLoop_dirs_mono _ _ _ _ _ _ (Fs.dirs_mkdirs_mem _ _)
      · intro _ t ht
        obtain ⟨_, hpost⟩ := linkLoop_success_post root row.filename
          (rowNew root row) (rowAlbumTitles row) _ n1 hsucc fb_new
        obtain ⟨hlp, hdir⟩ := hpost t ht
        rw [h1]
        exact ⟨hdir, hlp⟩
    · -- dangling branch
      rw [Bool.not_eq_true] at hpn
      have heq := organizeRecord_eq_dangling root fs row hpo hpn
      rw [heq] at h
      have h1 : fs' = fs.mkdirs (rowDatePath root row) := by
        injection h with h1 _
        exact h1.symm
      subst h1
      refine ⟨?_, ?_, Fs.dirs_mkdirs_mem _ _, ?_⟩
      · intro q tgt hq
        rw [Fs.get_mkdirs] at hq
        obtain ⟨hlen, hex⟩ := hG _ _ hq
        refine ⟨hlen, ?_⟩
        rw [Fs.get_mkdirs]
        exact hex
      · rw [Fs.get_mkdirs]
        exact holdn
      · intro hpe
        rw [Fs.pathExists_mkdirs, hpn] at hpe
        exact absurd hpe (by simp)

/-- One successful `organizeRecord` run keeps every already-settled
record settled. -/
theorem organizeRecord_preserves_settled (root : FPath) (fs : Fs)
    (row r0 : OrgRow) (fs' : Fs) (hG : GoodLinks root fs)
    (hS : Settled root fs r0)
    (h : organizeRecord root fs row = (fs', false)) :
    Settled root fs' r0 := by
  obtain ⟨e2, e3, e4, e67⟩ := organizeRecord_effects root fs row fs' hG h
  obtain ⟨hGL, _⟩ := organizeRecord_establishes root fs row fs' hG h
  obtain ⟨hold0, hdir0, hlinks0⟩ := hS
  refine ⟨e3 _ hold0 (rowOld_length root r0), e4 _ hdir0, ?_⟩
  intro hpe t ht
  by_cases hpn : fs.pathExists (rowNew root r0) = true
  · obtain ⟨hdirT, hlpT⟩ := hlinks0 hpn t ht
    refine ⟨e4 _ hdirT, ?_⟩
    have hlpne : fs.get (linkPathOf root t r0.filename) ≠ none :=
      Fs.get_isSome_of_pathExists hlpT
    cases hm : fs.get (linkPathOf root t r0.filename) with
    | none => exact absurd hm hlpne
    | some m =>
      have hex := e2 _ m hm
        (fun he => (rowOld_ne_linkPathOf root row t r0.filename) he.symm)
      cases hm' : fs'.get (linkPathOf root t r0.filename) with
      | none => exact absurd hm' hex
      | some m' => exact pathExists_of_goodLinks hGL hm'
  · exfalso
    rw [Bool.not_eq_true] at hpn
    have hn0 : fs.get (rowNew root r0) = none := get_none_of_goodLinks hG hpn
    have hn0' : fs'.get (rowNew root r0) = none := by
      refine e67 _ hn0 (rowNew_length root r0) ?_
      by_cases he : rowNew root r0 = rowNew root row
      · right
        have hfeq : r0.filename = row.filename := by
          rw [rowNew_eq, rowNew_eq] at he
          exact (append_pair_inj root _ _ _ _ he).2
        have hoeq : rowOld root row = rowOld root r0 := by
          rw [rowOld, rowOld, hfeq]
        rw [hoeq]
        exact hold0
      · exact Or.inl he
    rw [Fs.pathExists_of_get_none hn0'] at hpe
    exact absurd hpe (by simp)

/-- A successful organizer pass keeps a settled record settled. -/
theorem organizeRows_preserves_settled (root : FPath) (r0 : OrgRow) :
    ∀ (rows : List OrgRow) (fs fs' : Fs), GoodLinks root fs →
      Settled root fs r0 →
      organizeRows root rows fs = (fs', false) →
      Settled root fs' r0 := by
  intro rows
  induction rows with
  | nil =>
    intro fs fs' _ hS h
    have h1 : fs = fs' := by
      injection h with h1 _
    subst h1
    exact hS
  | cons row2 rest2 ih =>
    intro fs fs' hG hS h
    rw [organizeRows] at h
    revert h
    cases hrec : organizeRecord root fs row2 with
    | mk fsc b =>
      intro h
      cases b
      case true =>
        exact absurd (congrArg Prod.snd h) (by simp)
      case false =>
        obtain ⟨hGc, _⟩ := organizeRecord_establishes root fs row2 fsc hG hrec
        exact ih fsc fs' hGc
          (organizeRecord_preserves_settled root fs row2 r0 fsc hG hS hrec) h

/-- A successful organizer pass from a state obeying the link discipline
leaves every processed record settled (and the discipline intact). -/
theorem organizeRows_establishes (root : FPath) :
    ∀ (rows : List OrgRow) (fs fs' : Fs), GoodLinks root fs →
      organizeRows root rows fs = (fs', false) →
      GoodLinks root fs' ∧ ∀ r ∈ rows, Settled root fs' r := by
  intro rows
  induction rows with
  | nil =>
    intro fs fs' hG h
    have h1 : fs = fs' := by
      injection h with h1 _
    subst h1
    refine ⟨hG, ?_⟩
    intro r hr
    exact absurd hr (List.not_mem_nil r)
  | cons row rest ih =>
    intro fs fs' hG h
    rw [organizeRows] at h
    revert h
    cases hrec : organizeRecord root fs row with
    | mk fsa b =>
      intro h
      cases b
      case true =>
        exact absurd (congrArg Prod.snd h) (by simp)
      case false =>
      obtain ⟨hGa, hSa⟩ := organizeRecord_establishes root fs row fsa hG hrec
      obtain ⟨hG', hrest⟩ := ih fsa fs' hGa h
      refine ⟨hG', ?_⟩
      intro r hr
      rcases List.mem_cons.mp hr with he | hm
      · subst he
        exact organizeRows_preserves_settled root r rest fsa fs' hGa hSa h
      · exact hrest r hm

/-- C8 amended: starting from a filesystem holding no symlinks (the
state the sync phase produces), if one organizer pass completes without
error then a second pass over the same ledger returns the identical
tree — it performs no moves, creates no links, and raises no error.
(Pre-existing symlinks into the flat download level break this: see the
counterexample.) -/
theorem organize_idempotent_after_clean_run (root : FPath) (db : DB)
    (fs fs1 : Fs) (hlf : fs.linkFree = true)
    (h1 : organize_photos root db fs = (fs1, false)) :
    organize_photos root db fs1 = (fs1, false) := by
  have hG := goodLinks_of_linkFree root fs hlf
  obtain ⟨_, hsettled⟩ := organizeRows_establishes root (rowsOf db) fs fs1 hG h1
  exact organizeRows_settled root (rowsOf db) fs1 hsettled

/-- Witness for `organize_idempotent_after_clean_run` on the concrete
flat state. -/
theorem organize_idempotent_after_clean_run_witness :
    fsFlat2.linkFree = true ∧
    organize_photos root0 dbOrg fsFlat2
      = ((organize_photos root0 dbOrg fsFlat2).1, false) ∧
    organize_photos root0 dbOrg (organize_photos root0 dbOrg fsFlat2).1
      = ((organize_photos root0 dbOrg fsFlat2).1, false) :=
  ⟨by decide, by decide,
    organize_idempotent_after_clean_run root0 dbOrg fsFlat2
      (organize_photos root0 dbOrg fsFlat2).1 (by decide) (by decide)⟩
